import Mathlib

/-!
Verification of the `DerivativeBarComputable` bar accumulator of
tardis-machine (`computeDerivativeBars`).

The TypeScript source is shallowly embedded: JavaScript `Date` values are
modelled by their millisecond value as `Int` (`DATE_MIN = new Date(-1)`
becomes `-1`), numeric fields by `Int`, fields of type `number | undefined`
by `Option Int`, and the generator `compute` by a pure function returning
the list of yielded bars together with the successor state.  `Math.floor`
of an integer quotient is `Int.fdiv` (floor division).
-/

set_option autoImplicit false

namespace TardisMachine

/-- The sentinel `DATE_MIN = new Date(-1)`, i.e. millisecond value `-1`. -/
def DATE_MIN : Int := -1

/-- The closed `BarKind` union: `'time' | 'volume' | 'tick'`. -/
inductive BarKind where
  | time
  | volume
  | tick
deriving DecidableEq, Repr, Inhabited

/-- The `kindSuffix` lookup table used to derive the default bar name. -/
def kindSuffix : BarKind → String
  | .tick => "ticks"
  | .time => "ms"
  | .volume => "vol"

/-- Options of `computeDerivativeBars` / the `DerivativeBarComputable`
constructor. -/
structure DerivativeBarComputableOptions where
  kind : BarKind
  interval : Int
  name : Option String
deriving DecidableEq, Repr, Inhabited

/-- A normalized `derivative_ticker` event (the fields the accumulator
reads). -/
structure DerivativeTicker where
  symbol : String
  exchange : String
  timestamp : Int
  localTimestamp : Int
  lastPrice : Option Int
  openInterest : Option Int
  fundingRate : Option Int
  indexPrice : Option Int
  markPrice : Option Int
  predictedFundingRate : Option Int
deriving DecidableEq, Repr, Inhabited

/-- A `book_change` event; the accumulator only reads its identity and
timestamp fields, so only those are modelled. -/
structure BookChange where
  symbol : String
  exchange : String
  timestamp : Int
  localTimestamp : Int
deriving DecidableEq, Repr, Inhabited

/-- The message union `DerivativeTicker | BookChange` consumed by
`compute`. -/
inductive Message where
  | derivativeTicker (t : DerivativeTicker)
  | bookChange (b : BookChange)
deriving DecidableEq, Repr, Inhabited

/-- Common `timestamp` accessor of a normalized message. -/
def Message.timestamp : Message → Int
  | .derivativeTicker t => t.timestamp
  | .bookChange b => b.timestamp

/-- Common `localTimestamp` accessor of a normalized message. -/
def Message.localTimestamp : Message → Int
  | .derivativeTicker t => t.localTimestamp
  | .bookChange b => b.localTimestamp

/-- Common `symbol` accessor of a normalized message. -/
def Message.symbol : Message → String
  | .derivativeTicker t => t.symbol
  | .bookChange b => b.symbol

/-- Common `exchange` accessor of a normalized message. -/
def Message.exchange : Message → String
  | .derivativeTicker t => t.exchange
  | .bookChange b => b.exchange

/-- Whether a message is a `book_change` heartbeat. -/
def Message.isHeartbeat : Message → Bool
  | .derivativeTicker _ => false
  | .bookChange _ => true

/-- The `DerivativeBar` record.  It doubles as the mutable
`_inProgressBar` (TypeScript uses `Writeable<DerivativeBar>` for both).
The `type` field is the constant `'derivative_bar'` discriminator;
`fundingTimestamp` is declared in the source type but never assigned. -/
structure DerivativeBar where
  type : String
  symbol : String
  exchange : String
  name : String
  interval : Int
  kind : BarKind
  openLastPrice : Option Int
  openOi : Option Int
  openFundingRate : Option Int
  openIndexPrice : Option Int
  openMarkPrice : Option Int
  openTimestamp : Int
  closeLastPrice : Option Int
  closeOi : Option Int
  closeFundingRate : Option Int
  closeIndexPrice : Option Int
  closeMarkPrice : Option Int
  closeTimestamp : Int
  deltaOi : Int
  predictedFundingRate : Option Int
  ticks : Nat
  fundingTimestamp : Option Int
  timestamp : Int
  localTimestamp : Int
deriving DecidableEq, Repr, Inhabited

/-- Body of `_reset`: every field of the in-progress bar except the
never-assigned `fundingTimestamp` is overwritten (note `openLastPrice`
is reset to `0`, not to `undefined`). -/
def resetBar (kind : BarKind) (interval : Int) (name : String)
    (barToReset : DerivativeBar) : DerivativeBar :=
  { barToReset with
    type := "derivative_bar"
    symbol := ""
    exchange := ""
    name := name
    interval := interval
    kind := kind
    openLastPrice := some 0
    openOi := none
    openFundingRate := none
    openIndexPrice := none
    openMarkPrice := none
    openTimestamp := DATE_MIN
    closeLastPrice := none
    closeOi := none
    closeFundingRate := none
    closeIndexPrice := none
    closeMarkPrice := none
    closeTimestamp := DATE_MIN
    deltaOi := 0
    predictedFundingRate := none
    ticks := 0
    timestamp := DATE_MIN }

/-- State of one `DerivativeBarComputable` instance: the mutable
`_inProgressBar` plus the readonly `_kind`, `_interval`, `_name`. -/
structure DerivativeBarComputable where
  inProgressBar : DerivativeBar
  kind : BarKind
  interval : Int
  name : String
deriving DecidableEq, Repr, Inhabited

namespace DerivativeBarComputable

/-- The `\x7b\x7d as any` object the constructor starts from, before
`_reset` overwrites every field; only `fundingTimestamp` (never assigned
anywhere) keeps its initial `undefined`. -/
def initialInProgressBar : DerivativeBar :=
  { type := ""
    symbol := ""
    exchange := ""
    name := ""
    interval := 0
    kind := .time
    openLastPrice := none
    openOi := none
    openFundingRate := none
    openIndexPrice := none
    openMarkPrice := none
    openTimestamp := 0
    closeLastPrice := none
    closeOi := none
    closeFundingRate := none
    closeIndexPrice := none
    closeMarkPrice := none
    closeTimestamp := 0
    deltaOi := 0
    predictedFundingRate := none
    ticks := 0
    fundingTimestamp := none
    timestamp := 0
    localTimestamp := 0 }

/-- The constructor.  It performs no validation of `interval` or `kind`;
it derives the default name and resets the in-progress bar. -/
def create (o : DerivativeBarComputableOptions) : DerivativeBarComputable :=
  let name :=
    match o.name with
    | none => "derivative_bar_" ++ toString o.interval ++ kindSuffix o.kind
    | some n => n
  { kind := o.kind
    interval := o.interval
    name := name
    inProgressBar := resetBar o.kind o.interval name initialInProgressBar }

/-- `_getTimeBucket`: `Math.floor(timestamp.valueOf() / this._interval)`,
floor division on millisecond values. -/
def getTimeBucket (c : DerivativeBarComputable) (timestamp : Int) : Int :=
  Int.fdiv timestamp c.interval

/-- `_reset` as a state transformer. -/
def reset (c : DerivativeBarComputable) : DerivativeBarComputable :=
  { c with inProgressBar := resetBar c.kind c.interval c.name c.inProgressBar }

/-- `_hasNewBar`.  In the `time` branch a positive answer also mutates
`_inProgressBar.timestamp` to the closing boundary of the open bucket, so
the function returns the flag together with the successor state. -/
def hasNewBar (c : DerivativeBarComputable) (timestamp : Int) :
    Bool × DerivativeBarComputable :=
  if c.inProgressBar.ticks = 0 then
    (false, c)
  else if c.kind = .time then
    let currentTimestampTimeBucket := c.getTimeBucket timestamp
    let openTimestampTimeBucket := c.getTimeBucket c.inProgressBar.openTimestamp
    if openTimestampTimeBucket < currentTimestampTimeBucket then
      (true, { c with inProgressBar :=
        { c.inProgressBar with
          timestamp := (openTimestampTimeBucket + 1) * c.interval } })
    else
      (false, c)
  else if c.kind = .volume then
    (decide (c.interval ≤ c.inProgressBar.deltaOi), c)
  else if c.kind = .tick then
    (decide (c.interval ≤ (c.inProgressBar.ticks : Int)), c)
  else
    (false, c)

/-- `_computeBar`: stamp `localTimestamp`, `symbol`, `exchange` from the
closing message onto the in-progress bar, snapshot it, then reset. -/
def computeBar (c : DerivativeBarComputable) (message : Message) :
    DerivativeBar × DerivativeBarComputable :=
  let stamped :=
    { c.inProgressBar with
      localTimestamp := message.localTimestamp
      symbol := message.symbol
      exchange := message.exchange }
  (stamped, reset { c with inProgressBar := stamped })

/-- `_update`: fold one `DerivativeTicker` into the in-progress bar. -/
def update (c : DerivativeBarComputable) (derivativeTicker : DerivativeTicker) :
    DerivativeBarComputable :=
  let b0 := c.inProgressBar
  let b1 :=
    if b0.ticks = 0 then
      { b0 with
        openLastPrice := derivativeTicker.lastPrice
        openOi := derivativeTicker.openInterest
        openFundingRate := derivativeTicker.fundingRate
        openIndexPrice := derivativeTicker.indexPrice
        openMarkPrice := derivativeTicker.markPrice
        openTimestamp := derivativeTicker.timestamp }
    else b0
  let b2 :=
    { b1 with
      closeLastPrice := derivativeTicker.lastPrice
      closeOi := derivativeTicker.openInterest
      closeFundingRate := derivativeTicker.fundingRate
      closeIndexPrice := derivativeTicker.indexPrice
      closeMarkPrice := derivativeTicker.markPrice
      closeTimestamp := derivativeTicker.timestamp }
  let b3 := { b2 with deltaOi := b2.closeOi.getD 0 - b2.openOi.getD 0 }
  let b4 :=
    { b3 with
      predictedFundingRate := derivativeTicker.predictedFundingRate
      ticks := b3.ticks + 1
      timestamp := derivativeTicker.timestamp }
  { c with inProgressBar := b4 }

/-- The `compute` generator, as a pure function returning the list of
yielded bars (in yield order) and the successor state. -/
def compute (c : DerivativeBarComputable) (message : Message) :
    List DerivativeBar × DerivativeBarComputable :=
  let r1 := c.hasNewBar message.timestamp
  let p1 : List DerivativeBar × DerivativeBarComputable :=
    if r1.1 then
      let rb := r1.2.computeBar message
      ([rb.1], rb.2)
    else
      ([], r1.2)
  match message with
  | .bookChange _ => p1
  | .derivativeTicker t =>
    let c3 := p1.2.update t
    let r2 := c3.hasNewBar message.timestamp
    if r2.1 then
      let rb2 := r2.2.computeBar message
      (p1.1 ++ [rb2.1], rb2.2)
    else
      (p1.1, r2.2)

/-- Feeding a whole list of messages through `compute`, concatenating the
yielded bars in emission order. -/
def consumeAll (c : DerivativeBarComputable) :
    List Message → List DerivativeBar × DerivativeBarComputable
  | [] => ([], c)
  | m :: rest =>
    let p := c.compute m
    let q := p.2.consumeAll rest
    (p.1 ++ q.1, q.2)

/-- A concrete ticker event used by witnesses. -/
def witnessTickerRaw (ts : Int) (oi : Option Int) : DerivativeTicker :=
  { symbol := "BTC-PERP"
    exchange := "deribit"
    timestamp := ts
    localTimestamp := ts + 5
    lastPrice := some 100
    openInterest := oi
    fundingRate := none
    indexPrice := none
    markPrice := none
    predictedFundingRate := none }

/-- A concrete ticker message used by witnesses. -/
def witnessTicker (ts : Int) (oi : Option Int) : Message :=
  Message.derivativeTicker (witnessTickerRaw ts oi)

/-- A concrete heartbeat message used by witnesses. -/
def witnessHeartbeat (ts : Int) : Message :=
  Message.bookChange
    { symbol := "BTC-PERP", exchange := "deribit", timestamp := ts, localTimestamp := ts + 5 }

/-- Time-kind accumulator, interval 60000 ms, after one tick at t = 10000
(spec Scenario B). -/
def witnessTimeOpen : DerivativeBarComputable :=
  ((create { kind := .time, interval := 60000, name := none }).compute (witnessTicker 10000 none)).2

/-- The single bar yielded when the heartbeat at t = 65000 closes the
Scenario B bar. -/
def witnessTimeBar : DerivativeBar :=
  ((witnessTimeOpen.compute (witnessHeartbeat 65000)).1).headI

/-- Tick-kind accumulator with interval 3 after two ticks (spec
Scenario A, just before the closing tick T3). -/
def witnessTickAcc : DerivativeBarComputable :=
  ((create { kind := .tick, interval := 3, name := none }).consumeAll
    [witnessTicker 1 none, witnessTicker 2 none]).2

/-- The bar emitted when tick T3 closes the Scenario A bar. -/
def witnessTickBar : DerivativeBar :=
  ((witnessTickAcc.compute (witnessTicker 3 none)).1).headI

/-- Volume-kind accumulator, interval 1000, after one tick with open
interest 5000 (spec Scenario C, bar open). -/
def witnessVolOpen : DerivativeBarComputable :=
  ((create { kind := .volume, interval := 1000, name := none }).compute
    (witnessTicker 1 (some 5000))).2

/-- The bar emitted when a tick carrying open interest 6200 pushes
`deltaOi` to 1200 and closes the Scenario C bar. -/
def witnessVolBar : DerivativeBar :=
  ((witnessVolOpen.compute (witnessTicker 2 (some 6200))).1).headI

/-- A ticker sequence whose open-interest values decrease monotonically. -/
def witnessDecreasingTickers : List DerivativeTicker :=
  [witnessTickerRaw 1 (some 5000), witnessTickerRaw 2 (some 4800),
    witnessTickerRaw 3 (some 4500)]

/-- States reachable after all events with timestamps at most `L`: if a
bar is open, both its canonical timestamp and its open timestamp are at
most `L`. -/
def goodState (c : DerivativeBarComputable) (L : Int) : Prop :=
  c.inProgressBar.ticks ≠ 0 →
    c.inProgressBar.timestamp ≤ L ∧ c.inProgressBar.openTimestamp ≤ L

/-- A lower bound on the `timestamp` of every bar the accumulator can
still emit, given that all events seen so far had timestamps at most
`L`. -/
def minNext (c : DerivativeBarComputable) (L : Int) : Int :=
  if c.inProgressBar.ticks = 0 then
    if c.kind = .time then (Int.fdiv L c.interval + 1) * c.interval else L
  else
    if c.kind = .time then
      (Int.fdiv c.inProgressBar.openTimestamp c.interval + 1) * c.interval
    else
      c.inProgressBar.timestamp

/-- `xs` is a `≤`-chain squeezed between `lo` and `up`. -/
def boundedChain (lo : Int) (xs : List Int) (up : Int) : Prop :=
  List.Chain' (fun a b : Int => a ≤ b) (lo :: xs ++ [up])

end DerivativeBarComputable

end TardisMachine


namespace TardisMachine

namespace DerivativeBarComputable

/-! ### Characterization lemmas for the embedded operations -/

theorem hasNewBar_of_ticks_zero {c : DerivativeBarComputable} (ts : Int)
    (h : c.inProgressBar.ticks = 0) : c.hasNewBar ts = (false, c) := by
  simp [hasNewBar, h]

theorem hasNewBar_time_pos {c : DerivativeBarComputable} {ts : Int}
    (hk : c.kind = .time) (ht : c.inProgressBar.ticks ≠ 0)
    (hlt : Int.fdiv c.inProgressBar.openTimestamp c.interval < Int.fdiv ts c.interval) :
    c.hasNewBar ts = (true, { c with inProgressBar :=
      { c.inProgressBar with
        timestamp := (Int.fdiv c.inProgressBar.openTimestamp c.interval + 1) * c.interval } }) := by
  simp [hasNewBar, getTimeBucket, hk, ht, hlt]

theorem hasNewBar_time_neg {c : DerivativeBarComputable} {ts : Int}
    (hk : c.kind = .time) (ht : c.inProgressBar.ticks ≠ 0)
    (hge : ¬ Int.fdiv c.inProgressBar.openTimestamp c.interval < Int.fdiv ts c.interval) :
    c.hasNewBar ts = (false, c) := by
  simp [hasNewBar, getTimeBucket, hk, ht, hge]

theorem hasNewBar_volume {c : DerivativeBarComputable} (ts : Int)
    (hk : c.kind = .volume) (ht : c.inProgressBar.ticks ≠ 0) :
    c.hasNewBar ts = (decide (c.interval ≤ c.inProgressBar.deltaOi), c) := by
  simp [hasNewBar, hk, ht]

theorem hasNewBar_tick {c : DerivativeBarComputable} (ts : Int)
    (hk : c.kind = .tick) (ht : c.inProgressBar.ticks ≠ 0) :
    c.hasNewBar ts = (decide (c.interval ≤ (c.inProgressBar.ticks : Int)), c) := by
  simp [hasNewBar, hk, ht]

end DerivativeBarComputable

end TardisMachine

namespace TardisMachine

namespace DerivativeBarComputable

theorem hasNewBar_snd_cases (c : DerivativeBarComputable) (ts : Int) :
    (c.hasNewBar ts).2 = c ∨
    ((c.hasNewBar ts).1 = true ∧ c.kind = .time ∧
      (c.hasNewBar ts).2 = { c with inProgressBar :=
        { c.inProgressBar with
          timestamp := (Int.fdiv c.inProgressBar.openTimestamp c.interval + 1) * c.interval } }) := by
  unfold hasNewBar getTimeBucket
  by_cases h0 : c.inProgressBar.ticks = 0
  · simp [h0]
  · by_cases hk : c.kind = .time
    · by_cases hlt :
        Int.fdiv c.inProgressBar.openTimestamp c.interval < Int.fdiv ts c.interval
      · right
        refine ⟨by simp [h0, hk, hlt], hk, ?_⟩
        simp [h0, hk, hlt]
      · left
        simp [h0, hk, hlt]
    · rcases hk2 : c.kind with _ | _ | _
      · exact absurd hk2 hk
      · left; simp [h0, hk, hk2]
      · left; simp [h0, hk, hk2]

theorem hasNewBar_snd_kind (c : DerivativeBarComputable) (ts : Int) :
    (c.hasNewBar ts).2.kind = c.kind := by
  rcases hasNewBar_snd_cases c ts with h | ⟨-, -, h⟩ <;> rw [h]

theorem hasNewBar_snd_interval (c : DerivativeBarComputable) (ts : Int) :
    (c.hasNewBar ts).2.interval = c.interval := by
  rcases hasNewBar_snd_cases c ts with h | ⟨-, -, h⟩ <;> rw [h]

theorem hasNewBar_snd_name (c : DerivativeBarComputable) (ts : Int) :
    (c.hasNewBar ts).2.name = c.name := by
  rcases hasNewBar_snd_cases c ts with h | ⟨-, -, h⟩ <;> rw [h]

theorem hasNewBar_snd_ticks (c : DerivativeBarComputable) (ts : Int) :
    (c.hasNewBar ts).2.inProgressBar.ticks = c.inProgressBar.ticks := by
  rcases hasNewBar_snd_cases c ts with h | ⟨-, -, h⟩ <;> rw [h]

theorem hasNewBar_snd_openTimestamp (c : DerivativeBarComputable) (ts : Int) :
    (c.hasNewBar ts).2.inProgressBar.openTimestamp = c.inProgressBar.openTimestamp := by
  rcases hasNewBar_snd_cases c ts with h | ⟨-, -, h⟩ <;> rw [h]

theorem hasNewBar_snd_deltaOi (c : DerivativeBarComputable) (ts : Int) :
    (c.hasNewBar ts).2.inProgressBar.deltaOi = c.inProgressBar.deltaOi := by
  rcases hasNewBar_snd_cases c ts with h | ⟨-, -, h⟩ <;> rw [h]

theorem hasNewBar_snd_closeTimestamp (c : DerivativeBarComputable) (ts : Int) :
    (c.hasNewBar ts).2.inProgressBar.closeTimestamp = c.inProgressBar.closeTimestamp := by
  rcases hasNewBar_snd_cases c ts with h | ⟨-, -, h⟩ <;> rw [h]

theorem computeBar_fst (c : DerivativeBarComputable) (m : Message) :
    (c.computeBar m).1 = { c.inProgressBar with
      localTimestamp := m.localTimestamp
      symbol := m.symbol
      exchange := m.exchange } := rfl

theorem computeBar_snd (c : DerivativeBarComputable) (m : Message) :
    (c.computeBar m).2 = { c with inProgressBar :=
      { resetBar c.kind c.interval c.name c.inProgressBar with
        localTimestamp := m.localTimestamp } } := by
  simp [computeBar, reset, resetBar]

theorem reset_eq (c : DerivativeBarComputable) :
    c.reset = { c with inProgressBar := resetBar c.kind c.interval c.name c.inProgressBar } := rfl

theorem update_kind (c : DerivativeBarComputable) (t : DerivativeTicker) :
    (c.update t).kind = c.kind := rfl

theorem update_interval (c : DerivativeBarComputable) (t : DerivativeTicker) :
    (c.update t).interval = c.interval := rfl

theorem update_name (c : DerivativeBarComputable) (t : DerivativeTicker) :
    (c.update t).name = c.name := rfl

theorem update_ticks (c : DerivativeBarComputable) (t : DerivativeTicker) :
    (c.update t).inProgressBar.ticks = c.inProgressBar.ticks + 1 := by
  by_cases h : c.inProgressBar.ticks = 0 <;> simp [update, h]

theorem update_timestamp (c : DerivativeBarComputable) (t : DerivativeTicker) :
    (c.update t).inProgressBar.timestamp = t.timestamp := by
  by_cases h : c.inProgressBar.ticks = 0 <;> simp [update, h]

theorem update_closeTimestamp (c : DerivativeBarComputable) (t : DerivativeTicker) :
    (c.update t).inProgressBar.closeTimestamp = t.timestamp := by
  by_cases h : c.inProgressBar.ticks = 0 <;> simp [update, h]

theorem update_openTimestamp (c : DerivativeBarComputable) (t : DerivativeTicker) :
    (c.update t).inProgressBar.openTimestamp =
      if c.inProgressBar.ticks = 0 then t.timestamp else c.inProgressBar.openTimestamp := by
  by_cases h : c.inProgressBar.ticks = 0 <;> simp [update, h]

theorem update_openOi (c : DerivativeBarComputable) (t : DerivativeTicker) :
    (c.update t).inProgressBar.openOi =
      if c.inProgressBar.ticks = 0 then t.openInterest else c.inProgressBar.openOi := by
  by_cases h : c.inProgressBar.ticks = 0 <;> simp [update, h]

theorem update_deltaOi (c : DerivativeBarComputable) (t : DerivativeTicker) :
    (c.update t).inProgressBar.deltaOi =
      t.openInterest.getD 0 -
        (if c.inProgressBar.ticks = 0 then t.openInterest else c.inProgressBar.openOi).getD 0 := by
  by_cases h : c.inProgressBar.ticks = 0 <;> simp [update, h]

theorem update_fundingTimestamp (c : DerivativeBarComputable) (t : DerivativeTicker) :
    (c.update t).inProgressBar.fundingTimestamp = c.inProgressBar.fundingTimestamp := by
  by_cases h : c.inProgressBar.ticks = 0 <;> simp [update, h]

end DerivativeBarComputable

end TardisMachine

namespace TardisMachine

namespace DerivativeBarComputable

theorem hasNewBar_snd_of_false {c : DerivativeBarComputable} {ts : Int}
    (h : (c.hasNewBar ts).1 = false) : (c.hasNewBar ts).2 = c := by
  rcases hasNewBar_snd_cases c ts with h' | ⟨h1, -, -⟩
  · exact h'
  · rw [h1] at h
    cases h

theorem compute_bookChange_eq (c : DerivativeBarComputable) (b : BookChange) :
    c.compute (.bookChange b) =
      if (c.hasNewBar b.timestamp).1 then
        ([((c.hasNewBar b.timestamp).2.computeBar (.bookChange b)).1],
          ((c.hasNewBar b.timestamp).2.computeBar (.bookChange b)).2)
      else ([], c) := by
  by_cases h1 : (c.hasNewBar b.timestamp).1
  · simp [compute, Message.timestamp, h1]
  · simp [compute, Message.timestamp, h1, hasNewBar_snd_of_false (by simpa using h1)]

theorem compute_ticker_eq (c : DerivativeBarComputable) (t : DerivativeTicker) :
    c.compute (.derivativeTicker t) =
      (if ((if (c.hasNewBar t.timestamp).1 then
              ((c.hasNewBar t.timestamp).2.computeBar (.derivativeTicker t)).2
            else c).update t).hasNewBar t.timestamp |>.1 then
        ((if (c.hasNewBar t.timestamp).1 then
            [((c.hasNewBar t.timestamp).2.computeBar (.derivativeTicker t)).1]
          else []) ++
          [((((if (c.hasNewBar t.timestamp).1 then
                  ((c.hasNewBar t.timestamp).2.computeBar (.derivativeTicker t)).2
                else c).update t).hasNewBar t.timestamp).2.computeBar (.derivativeTicker t)).1],
          ((((if (c.hasNewBar t.timestamp).1 then
                ((c.hasNewBar t.timestamp).2.computeBar (.derivativeTicker t)).2
              else c).update t).hasNewBar t.timestamp).2.computeBar (.derivativeTicker t)).2)
      else
        ((if (c.hasNewBar t.timestamp).1 then
            [((c.hasNewBar t.timestamp).2.computeBar (.derivativeTicker t)).1]
          else []),
          (if (c.hasNewBar t.timestamp).1 then
              ((c.hasNewBar t.timestamp).2.computeBar (.derivativeTicker t)).2
            else c).update t)) := by
  by_cases h1 : (c.hasNewBar t.timestamp).1
  · by_cases h2 : ((((c.hasNewBar t.timestamp).2.computeBar (.derivativeTicker t)).2.update t).hasNewBar t.timestamp).1
    · simp [compute, Message.timestamp, h1, h2]
    · simp [compute, Message.timestamp, h1, h2, hasNewBar_snd_of_false (by simpa using h2)]
  · have hc : (c.hasNewBar t.timestamp).2 = c := hasNewBar_snd_of_false (by simpa using h1)
    by_cases h2 : ((c.update t).hasNewBar t.timestamp).1
    · simp [compute, Message.timestamp, h1, hc, h2]
    · simp [compute, Message.timestamp, h1, hc, h2, hasNewBar_snd_of_false (by simpa using h2)]

end DerivativeBarComputable

end TardisMachine

namespace TardisMachine

namespace DerivativeBarComputable

theorem computeBar_snd_kind (c : DerivativeBarComputable) (m : Message) :
    (c.computeBar m).2.kind = c.kind := by rw [computeBar_snd]

theorem computeBar_snd_interval (c : DerivativeBarComputable) (m : Message) :
    (c.computeBar m).2.interval = c.interval := by rw [computeBar_snd]

theorem computeBar_snd_name (c : DerivativeBarComputable) (m : Message) :
    (c.computeBar m).2.name = c.name := by rw [computeBar_snd]

theorem computeBar_snd_ticks (c : DerivativeBarComputable) (m : Message) :
    (c.computeBar m).2.inProgressBar.ticks = 0 := by
  rw [computeBar_snd]; simp [resetBar]

theorem computeBar_snd_deltaOi (c : DerivativeBarComputable) (m : Message) :
    (c.computeBar m).2.inProgressBar.deltaOi = 0 := by
  rw [computeBar_snd]; simp [resetBar]

theorem computeBar_snd_openTimestamp (c : DerivativeBarComputable) (m : Message) :
    (c.computeBar m).2.inProgressBar.openTimestamp = DATE_MIN := by
  rw [computeBar_snd]; simp [resetBar]

theorem computeBar_snd_closeTimestamp (c : DerivativeBarComputable) (m : Message) :
    (c.computeBar m).2.inProgressBar.closeTimestamp = DATE_MIN := by
  rw [computeBar_snd]; simp [resetBar]

theorem computeBar_snd_timestamp (c : DerivativeBarComputable) (m : Message) :
    (c.computeBar m).2.inProgressBar.timestamp = DATE_MIN := by
  rw [computeBar_snd]; simp [resetBar]

theorem mem_compute_fst {c : DerivativeBarComputable} {m : Message} {bar : DerivativeBar}
    (h : bar ∈ (c.compute m).1) :
    ∃ c' : DerivativeBarComputable, c'.kind = c.kind ∧ c'.interval = c.interval ∧
      (c'.hasNewBar m.timestamp).1 = true ∧
      bar = ((c'.hasNewBar m.timestamp).2.computeBar m).1 := by
  cases m with
  | bookChange b =>
    rw [compute_bookChange_eq] at h
    by_cases h1 : (c.hasNewBar b.timestamp).1
    · rw [if_pos h1] at h
      simp only [List.mem_singleton] at h
      exact ⟨c, rfl, rfl, by simpa [Message.timestamp] using h1, by simpa [Message.timestamp] using h⟩
    · rw [if_neg h1] at h
      simp at h
  | derivativeTicker t =>
    rw [compute_ticker_eq] at h
    by_cases h1 : (c.hasNewBar t.timestamp).1
    · simp only [if_pos h1] at h
      by_cases h2 : ((((c.hasNewBar t.timestamp).2.computeBar (.derivativeTicker t)).2.update t).hasNewBar t.timestamp).1
      · simp only [if_pos h2, List.mem_append, List.mem_singleton] at h
        rcases h with h | h
        · exact ⟨c, rfl, rfl, by simpa [Message.timestamp] using h1, by simpa [Message.timestamp] using h⟩
        · refine ⟨((c.hasNewBar t.timestamp).2.computeBar (.derivativeTicker t)).2.update t, ?_, ?_, by simpa [Message.timestamp] using h2, by simpa [Message.timestamp] using h⟩
          · rw [update_kind, computeBar_snd_kind, hasNewBar_snd_kind]
          · rw [update_interval, computeBar_snd_interval, hasNewBar_snd_interval]
      · simp only [if_neg h2, List.mem_singleton] at h
        exact ⟨c, rfl, rfl, by simpa [Message.timestamp] using h1, by simpa [Message.timestamp] using h⟩
    · simp only [if_neg h1] at h
      by_cases h2 : ((c.update t).hasNewBar t.timestamp).1
      · simp only [if_pos h2, List.nil_append, List.mem_singleton] at h
        refine ⟨c.update t, ?_, ?_, by simpa [Message.timestamp] using h2, by simpa [Message.timestamp] using h⟩
        · rw [update_kind]
        · rw [update_interval]
      · simp only [if_neg h2] at h
        simp at h

theorem compute_snd_kind (c : DerivativeBarComputable) (m : Message) :
    (c.compute m).2.kind = c.kind := by
  cases m with
  | bookChange b =>
    rw [compute_bookChange_eq]
    split_ifs
    · rw [computeBar_snd_kind, hasNewBar_snd_kind]
    · rfl
  | derivativeTicker t =>
    rw [compute_ticker_eq]
    split_ifs <;>
      simp [computeBar_snd_kind, hasNewBar_snd_kind, update_kind]

theorem compute_snd_interval (c : DerivativeBarComputable) (m : Message) :
    (c.compute m).2.interval = c.interval := by
  cases m with
  | bookChange b =>
    rw [compute_bookChange_eq]
    split_ifs
    · rw [computeBar_snd_interval, hasNewBar_snd_interval]
    · rfl
  | derivativeTicker t =>
    rw [compute_ticker_eq]
    split_ifs <;>
      simp [computeBar_snd_interval, hasNewBar_snd_interval, update_interval]

theorem compute_snd_name (c : DerivativeBarComputable) (m : Message) :
    (c.compute m).2.name = c.name := by
  cases m with
  | bookChange b =>
    rw [compute_bookChange_eq]
    split_ifs
    · rw [computeBar_snd_name, hasNewBar_snd_name]
    · rfl
  | derivativeTicker t =>
    rw [compute_ticker_eq]
    split_ifs <;>
      simp [computeBar_snd_name, hasNewBar_snd_name, update_name]

end DerivativeBarComputable

end TardisMachine

namespace TardisMachine

namespace DerivativeBarComputable

theorem hasNewBar_true_ticks_ne {c : DerivativeBarComputable} {ts : Int}
    (h : (c.hasNewBar ts).1 = true) : c.inProgressBar.ticks ≠ 0 := by
  intro h0
  rw [hasNewBar_of_ticks_zero ts h0] at h
  cases h

theorem hasNewBar_true_volume {c : DerivativeBarComputable} {ts : Int}
    (hk : c.kind = .volume) (h : (c.hasNewBar ts).1 = true) :
    c.interval ≤ c.inProgressBar.deltaOi := by
  have he := hasNewBar_volume ts hk (hasNewBar_true_ticks_ne h)
  rw [he] at h
  simpa using h

theorem hasNewBar_true_tick {c : DerivativeBarComputable} {ts : Int}
    (hk : c.kind = .tick) (h : (c.hasNewBar ts).1 = true) :
    c.interval ≤ (c.inProgressBar.ticks : Int) := by
  have he := hasNewBar_tick ts hk (hasNewBar_true_ticks_ne h)
  rw [he] at h
  simpa using h

theorem hasNewBar_true_time_bucket_lt {c : DerivativeBarComputable} {ts : Int}
    (hk : c.kind = .time) (h : (c.hasNewBar ts).1 = true) :
    Int.fdiv c.inProgressBar.openTimestamp c.interval < Int.fdiv ts c.interval := by
  by_contra hge
  rw [hasNewBar_time_neg hk (hasNewBar_true_ticks_ne h) hge] at h
  cases h

theorem hasNewBar_true_time_snd {c : DerivativeBarComputable} {ts : Int}
    (hk : c.kind = .time) (h : (c.hasNewBar ts).1 = true) :
    (c.hasNewBar ts).2 = { c with inProgressBar :=
      { c.inProgressBar with
        timestamp := (Int.fdiv c.inProgressBar.openTimestamp c.interval + 1) * c.interval } } := by
  rw [hasNewBar_time_pos hk (hasNewBar_true_ticks_ne h) (hasNewBar_true_time_bucket_lt hk h)]

theorem hasNewBar_false_volume {c : DerivativeBarComputable} {ts : Int}
    (hk : c.kind = .volume) (ht : c.inProgressBar.ticks ≠ 0)
    (h : (c.hasNewBar ts).1 = false) :
    c.inProgressBar.deltaOi < c.interval := by
  have he := hasNewBar_volume ts hk ht
  rw [he] at h
  simpa using h

theorem hasNewBar_false_tick {c : DerivativeBarComputable} {ts : Int}
    (hk : c.kind = .tick) (ht : c.inProgressBar.ticks ≠ 0)
    (h : (c.hasNewBar ts).1 = false) :
    (c.inProgressBar.ticks : Int) < c.interval := by
  have he := hasNewBar_tick ts hk ht
  rw [he] at h
  simpa using h

end DerivativeBarComputable

end TardisMachine

namespace TardisMachine

namespace DerivativeBarComputable

/-- C1: for a time-kind accumulator, every emitted bar's canonical
`timestamp` is the closing boundary `(openBucket + 1) * interval` of the
bucket of the bar's `openTimestamp` (the opening tick's exchange
timestamp), not the timestamp of the event that triggered closure. -/
theorem time_bar_timestamp_is_bucket_boundary
    (c : DerivativeBarComputable) (m : Message) (bar : DerivativeBar)
    (hk : c.kind = .time) (hi : 0 < c.interval)
    (hbar : bar ∈ (c.compute m).1) :
    bar.timestamp = (Int.fdiv bar.openTimestamp c.interval + 1) * c.interval := by
  obtain ⟨c', hk', hi', hflag, hbar_eq⟩ := mem_compute_fst hbar
  have hk2 : c'.kind = .time := hk'.trans hk
  rw [computeBar_fst, hasNewBar_true_time_snd hk2 hflag] at hbar_eq
  subst hbar_eq
  simp [hi', hk2]

/-- Witness for C1 at spec Scenario B: interval 60000, tick at t = 10000
opens the bar, heartbeat at t = 65000 closes it; the emitted bar carries
`timestamp = 60000` and `openTimestamp = 10000`. -/
theorem time_bar_timestamp_is_bucket_boundary_witness :
    witnessTimeBar.timestamp = 60000 ∧ witnessTimeBar.openTimestamp = 10000 ∧
      witnessTimeBar.timestamp =
        (Int.fdiv witnessTimeBar.openTimestamp witnessTimeOpen.interval + 1) *
          witnessTimeOpen.interval :=
  ⟨by decide, by decide,
    time_bar_timestamp_is_bucket_boundary witnessTimeOpen (witnessHeartbeat 65000) witnessTimeBar
      (by decide) (by decide) (by decide)⟩

end DerivativeBarComputable

end TardisMachine

namespace TardisMachine

theorem resetBar_congr {kind : BarKind} {interval : Int} {name : String}
    {b1 b2 : DerivativeBar}
    (hl : b1.localTimestamp = b2.localTimestamp)
    (hf : b1.fundingTimestamp = b2.fundingTimestamp) :
    resetBar kind interval name b1 = resetBar kind interval name b2 := by
  simp [resetBar, hl, hf]

namespace DerivativeBarComputable

theorem consumeAll_append (c : DerivativeBarComputable) (l1 l2 : List Message) :
    c.consumeAll (l1 ++ l2) =
      ((c.consumeAll l1).1 ++ ((c.consumeAll l1).2.consumeAll l2).1,
        ((c.consumeAll l1).2.consumeAll l2).2) := by
  induction l1 generalizing c with
  | nil => simp [consumeAll]
  | cons m rest ih => simp [consumeAll, ih]

theorem computeBar_snd_after_hasNewBar (c : DerivativeBarComputable) (ts : Int) (m : Message) :
    ((c.hasNewBar ts).2.computeBar m).2 = { c with inProgressBar :=
      { resetBar c.kind c.interval c.name c.inProgressBar with
        localTimestamp := m.localTimestamp } } := by
  rcases hasNewBar_snd_cases c ts with h | ⟨-, -, h⟩
  · rw [computeBar_snd, h]
  · rw [computeBar_snd, h]
    simp [resetBar]

/-- C2: an accumulator whose in-progress bar has `ticks = 0` never passes
the bucket test, and a heartbeat-only input sequence fed to it yields no
bar at all, whatever the timestamps involved. -/
theorem no_emission_without_ticks
    (c : DerivativeBarComputable) (hi : 0 < c.interval)
    (ht : c.inProgressBar.ticks = 0) :
    (∀ ts : Int, (c.hasNewBar ts).1 = false) ∧
    (∀ msgs : List Message, (∀ m ∈ msgs, m.isHeartbeat = true) →
      (c.consumeAll msgs).1 = []) := by
  refine ⟨fun ts => by rw [hasNewBar_of_ticks_zero ts ht], ?_⟩
  intro msgs
  induction msgs with
  | nil => intro _; simp [consumeAll]
  | cons m rest ih =>
    intro hmsgs
    have hm : m.isHeartbeat = true := hmsgs m (List.mem_cons_self m rest)
    cases m with
    | derivativeTicker t => simp [Message.isHeartbeat] at hm
    | bookChange b =>
      have hflag : (c.hasNewBar b.timestamp).1 = false := by
        rw [hasNewBar_of_ticks_zero b.timestamp ht]
      have hcomp : c.compute (.bookChange b) = ([], c) := by
        rw [compute_bookChange_eq, if_neg (by simp [hflag])]
      simp only [consumeAll, hcomp, List.nil_append]
      exact ih (fun m hm2 => hmsgs m (List.mem_cons_of_mem _ hm2))

/-- Witness for C2: a fresh time-kind accumulator fed two heartbeats far
apart in time yields no bar. -/
theorem no_emission_without_ticks_witness :
    ((create { kind := .time, interval := 60000, name := none }).consumeAll
      [witnessHeartbeat 5, witnessHeartbeat 200000]).1 = [] :=
  (no_emission_without_ticks (create { kind := .time, interval := 60000, name := none })
    (by decide) (by decide)).2
    [witnessHeartbeat 5, witnessHeartbeat 200000] (by decide)

/-- C9: consuming a heartbeat either leaves the whole accumulator state
completely unchanged (yielding nothing), or yields exactly one bar and
leaves the in-progress bar in the `_reset` empty state (only the
`localTimestamp` stamp of the closing heartbeat survives the reset, as
`_reset` never writes that field). -/
theorem heartbeat_never_opens_or_updates
    (c : DerivativeBarComputable) (b : BookChange) :
    (c.compute (.bookChange b) = ([], c)) ∨
    ((c.compute (.bookChange b)).1.length = 1 ∧
      (c.compute (.bookChange b)).2 = { c with inProgressBar :=
        { resetBar c.kind c.interval c.name c.inProgressBar with
          localTimestamp := b.localTimestamp } }) := by
  by_cases h1 : (c.hasNewBar b.timestamp).1
  · right
    rw [compute_bookChange_eq, if_pos h1]
    exact ⟨rfl, computeBar_snd_after_hasNewBar c b.timestamp (.bookChange b)⟩
  · left
    rw [compute_bookChange_eq, if_neg h1]

end DerivativeBarComputable

end TardisMachine

namespace TardisMachine

namespace DerivativeBarComputable

/-- C8: `_computeBar` stamps `localTimestamp`, `symbol`, `exchange` from
the closing message, the returned bar is a snapshot of every accumulated
field of the pre-reset in-progress bar, the accumulator is then reset to
the zero state (`ticks = 0`, `deltaOi = 0`, sentinel `DATE_MIN`
timestamps), and — the emitted snapshot being a pure value — any later
consumption only appends to the output, leaving every already-emitted bar
untouched. -/
theorem emission_clone_then_reset (c : DerivativeBarComputable) (m : Message) :
    ((c.computeBar m).1.localTimestamp = m.localTimestamp ∧
      (c.computeBar m).1.symbol = m.symbol ∧
      (c.computeBar m).1.exchange = m.exchange) ∧
    ((c.computeBar m).1.openLastPrice = c.inProgressBar.openLastPrice ∧
      (c.computeBar m).1.openOi = c.inProgressBar.openOi ∧
      (c.computeBar m).1.openFundingRate = c.inProgressBar.openFundingRate ∧
      (c.computeBar m).1.openIndexPrice = c.inProgressBar.openIndexPrice ∧
      (c.computeBar m).1.openMarkPrice = c.inProgressBar.openMarkPrice ∧
      (c.computeBar m).1.openTimestamp = c.inProgressBar.openTimestamp ∧
      (c.computeBar m).1.closeLastPrice = c.inProgressBar.closeLastPrice ∧
      (c.computeBar m).1.closeOi = c.inProgressBar.closeOi ∧
      (c.computeBar m).1.closeFundingRate = c.inProgressBar.closeFundingRate ∧
      (c.computeBar m).1.closeIndexPrice = c.inProgressBar.closeIndexPrice ∧
      (c.computeBar m).1.closeMarkPrice = c.inProgressBar.closeMarkPrice ∧
      (c.computeBar m).1.closeTimestamp = c.inProgressBar.closeTimestamp ∧
      (c.computeBar m).1.deltaOi = c.inProgressBar.deltaOi ∧
      (c.computeBar m).1.predictedFundingRate = c.inProgressBar.predictedFundingRate ∧
      (c.computeBar m).1.ticks = c.inProgressBar.ticks ∧
      (c.computeBar m).1.timestamp = c.inProgressBar.timestamp) ∧
    ((c.computeBar m).2.inProgressBar.ticks = 0 ∧
      (c.computeBar m).2.inProgressBar.deltaOi = 0 ∧
      (c.computeBar m).2.inProgressBar.openTimestamp = DATE_MIN ∧
      (c.computeBar m).2.inProgressBar.closeTimestamp = DATE_MIN ∧
      (c.computeBar m).2.inProgressBar.timestamp = DATE_MIN) ∧
    (∀ (c0 : DerivativeBarComputable) (msgs1 msgs2 : List Message),
      (c0.consumeAll (msgs1 ++ msgs2)).1 =
        (c0.consumeAll msgs1).1 ++ ((c0.consumeAll msgs1).2.consumeAll msgs2).1) := by
  refine ⟨⟨rfl, rfl, rfl⟩,
    ⟨rfl, rfl, rfl, rfl, rfl, rfl, rfl, rfl, rfl, rfl, rfl, rfl, rfl, rfl, rfl, rfl⟩,
    ⟨computeBar_snd_ticks c m, computeBar_snd_deltaOi c m, computeBar_snd_openTimestamp c m,
      computeBar_snd_closeTimestamp c m, computeBar_snd_timestamp c m⟩,
    fun c0 msgs1 msgs2 => ?_⟩
  rw [consumeAll_append]

end DerivativeBarComputable

end TardisMachine

namespace TardisMachine

namespace DerivativeBarComputable

/-- C3: for a tick-kind accumulator with positive interval, under the
reachable-state invariant `ticks < interval`, every bar emitted by one
`compute` call has `ticks` equal to exactly the interval, a bar can only
be emitted by the call that processes a `DerivativeTick` (never by a
heartbeat), and the invariant is preserved. -/
theorem tick_bar_exact_interval
    (c : DerivativeBarComputable) (m : Message)
    (hk : c.kind = .tick) (hi : 0 < c.interval)
    (hinv : (c.inProgressBar.ticks : Int) < c.interval) :
    (∀ bar ∈ (c.compute m).1, (bar.ticks : Int) = c.interval) ∧
    ((c.compute m).1 ≠ [] → ∃ t : DerivativeTicker, m = .derivativeTicker t) ∧
    (((c.compute m).2.inProgressBar.ticks : Int) < c.interval) := by
  have h1 : (c.hasNewBar m.timestamp).1 = false := by
    rcases h : (c.hasNewBar m.timestamp).1 with _ | _
    · rfl
    · exact absurd (hasNewBar_true_tick hk h) (not_le.mpr hinv)
  cases m with
  | bookChange b =>
    have h1b : (c.hasNewBar b.timestamp).1 = false := by
      simpa [Message.timestamp] using h1
    have hcomp : c.compute (.bookChange b) = ([], c) := by
      rw [compute_bookChange_eq, if_neg (by simp [h1b])]
    rw [hcomp]
    exact ⟨by simp, by simp, hinv⟩
  | derivativeTicker t =>
    have h1t : (c.hasNewBar t.timestamp).1 = false := by
      simpa [Message.timestamp] using h1
    have hticks3 : (c.update t).inProgressBar.ticks = c.inProgressBar.ticks + 1 :=
      update_ticks c t
    have hk3 : (c.update t).kind = .tick := by rw [update_kind]; exact hk
    have hi3 : (c.update t).interval = c.interval := update_interval c t
    by_cases h2 : ((c.update t).hasNewBar t.timestamp).1
    · have hle : c.interval ≤ ((c.update t).inProgressBar.ticks : Int) :=
        hi3 ▸ hasNewBar_true_tick hk3 h2
      have hexact : ((c.update t).inProgressBar.ticks : Int) = c.interval := by
        rw [hticks3] at hle ⊢
        push_cast at hle ⊢
        omega
      have hcomp : c.compute (.derivativeTicker t) =
          ([(((c.update t).hasNewBar t.timestamp).2.computeBar (.derivativeTicker t)).1],
            (((c.update t).hasNewBar t.timestamp).2.computeBar (.derivativeTicker t)).2) := by
        rw [compute_ticker_eq]
        simp [h1t, h2]
      rw [hcomp]
      refine ⟨?_, fun _ => ⟨t, rfl⟩, ?_⟩
      · intro bar hbar
        simp only [List.mem_singleton] at hbar
        subst hbar
        rw [computeBar_fst]
        show (((c.update t).hasNewBar t.timestamp).2.inProgressBar.ticks : Int) = c.interval
        rw [hasNewBar_snd_ticks]
        exact hexact
      · rw [computeBar_snd_ticks]
        exact_mod_cast hi
    · have hcomp : c.compute (.derivativeTicker t) = ([], c.update t) := by
        rw [compute_ticker_eq]
        simp [h1t, h2, hasNewBar_snd_of_false (by simpa using h2)]
      rw [hcomp]
      refine ⟨by simp, by simp, ?_⟩
      have := hasNewBar_false_tick hk3 (by omega) (by simpa using h2)
      rwa [hi3] at this

/-- Witness for C3 at spec Scenario A: interval 3, after ticks T1 and T2
the closing tick T3 yields a bar with exactly 3 ticks; feeding T1..T5 to a
fresh accumulator yields exactly one bar (of 3 ticks) and leaves the
accumulator accumulating with 2 ticks. -/
theorem tick_bar_exact_interval_witness :
    ((((create { kind := .tick, interval := 3, name := none }).consumeAll
        [witnessTicker 1 none, witnessTicker 2 none, witnessTicker 3 none,
          witnessTicker 4 none, witnessTicker 5 none]).1.map (fun b => b.ticks) = [3]) ∧
      ((create { kind := .tick, interval := 3, name := none }).consumeAll
        [witnessTicker 1 none, witnessTicker 2 none, witnessTicker 3 none,
          witnessTicker 4 none, witnessTicker 5 none]).2.inProgressBar.ticks = 2) ∧
    (witnessTickBar.ticks : Int) = witnessTickAcc.interval :=
  ⟨⟨by decide, by decide⟩,
    (tick_bar_exact_interval witnessTickAcc (witnessTicker 3 none)
      (by decide) (by decide) (by decide)).1 witnessTickBar (by decide)⟩

end DerivativeBarComputable

end TardisMachine

namespace TardisMachine

namespace DerivativeBarComputable

theorem volume_no_emit_aux
    (ts : List DerivativeTicker) (c : DerivativeBarComputable)
    (hk : c.kind = .volume) (hi : 0 < c.interval)
    (hstate : c.inProgressBar.ticks = 0 ∨
      (c.inProgressBar.ticks ≠ 0 ∧ c.inProgressBar.deltaOi ≤ 0 ∧
        ∀ t ∈ ts, t.openInterest.getD 0 ≤ c.inProgressBar.openOi.getD 0))
    (hdec : List.Pairwise (fun a b : Int => b ≤ a)
      (ts.map (fun t => t.openInterest.getD 0))) :
    (c.consumeAll (ts.map Message.derivativeTicker)).1 = [] := by
  induction ts generalizing c with
  | nil => simp [consumeAll]
  | cons t rest ih =>
    rw [List.map_cons, List.pairwise_cons] at hdec
    obtain ⟨hhead, htail⟩ := hdec
    have h1 : (c.hasNewBar t.timestamp).1 = false := by
      rcases hstate with h0 | ⟨h0, hd, -⟩
      · rw [hasNewBar_of_ticks_zero t.timestamp h0]
      · rw [hasNewBar_volume t.timestamp hk h0]
        simp
        omega
    have hticks3 : (c.update t).inProgressBar.ticks = c.inProgressBar.ticks + 1 :=
      update_ticks c t
    have hk3 : (c.update t).kind = .volume := by rw [update_kind]; exact hk
    have hd3 : (c.update t).inProgressBar.deltaOi ≤ 0 := by
      rw [update_deltaOi]
      rcases hstate with h0 | ⟨h0, -, hoi⟩
      · rw [if_pos h0]
        omega
      · rw [if_neg h0]
        have := hoi t (List.mem_cons_self t rest)
        omega
    have h2 : ((c.update t).hasNewBar t.timestamp).1 = false := by
      rw [hasNewBar_volume t.timestamp hk3 (by omega)]
      have hi3 : (c.update t).interval = c.interval := update_interval c t
      simp [hi3]
      omega
    have hcomp : c.compute (.derivativeTicker t) = ([], c.update t) := by
      rw [compute_ticker_eq]
      simp [h1, h2, hasNewBar_snd_of_false h1, hasNewBar_snd_of_false h2]
    rw [List.map_cons]
    simp only [consumeAll, hcomp, List.nil_append]
    refine ih (c.update t) hk3 (by rw [update_interval]; exact hi) ?_ ?_
    · right
      refine ⟨by omega, hd3, ?_⟩
      intro r hr
      rw [update_openOi]
      rcases hstate with h0 | ⟨h0, -, hoi⟩
      · rw [if_pos h0]
        exact hhead _ (List.mem_map_of_mem _ hr)
      · rw [if_neg h0]
        exact hoi r (List.mem_cons_of_mem _ hr)
    · exact htail

/-- C4: for a volume-kind accumulator with positive interval, every
emitted bar satisfies `deltaOi >= interval` (`deltaOi = closeOi − openOi`
with missing open interest read as 0), and a ticker sequence whose
open-interest values decrease monotonically never closes a bar. -/
theorem volume_bar_deltaOi_ge_interval
    (c : DerivativeBarComputable)
    (hk : c.kind = .volume) (hi : 0 < c.interval) :
    (∀ m : Message, ∀ bar ∈ (c.compute m).1, c.interval ≤ bar.deltaOi) ∧
    (∀ ts : List DerivativeTicker, c.inProgressBar.ticks = 0 →
      List.Pairwise (fun a b : Int => b ≤ a)
        (ts.map (fun t => t.openInterest.getD 0)) →
      (c.consumeAll (ts.map Message.derivativeTicker)).1 = []) := by
  constructor
  · intro m bar hbar
    obtain ⟨c', hk', hi', hflag, hbar_eq⟩ := mem_compute_fst hbar
    have hk2 : c'.kind = .volume := hk'.trans hk
    have hle : c'.interval ≤ c'.inProgressBar.deltaOi := hasNewBar_true_volume hk2 hflag
    rw [hi'] at hle
    subst hbar_eq
    rw [computeBar_fst]
    show c.interval ≤ (c'.hasNewBar m.timestamp).2.inProgressBar.deltaOi
    rw [hasNewBar_snd_deltaOi]
    exact hle
  · intro ts h0 hdec
    exact volume_no_emit_aux ts c hk hi (Or.inl h0) hdec

/-- Witness for C4 at spec Scenario C: interval 1000, open interest 5000
then 6200 emits a bar with `deltaOi = 1200 >= 1000`; and the monotonically
decreasing sequence 5000, 4800, 4500 fed to a fresh accumulator emits
nothing. -/
theorem volume_bar_deltaOi_ge_interval_witness :
    (witnessVolBar.deltaOi = 1200 ∧ witnessVolOpen.interval ≤ witnessVolBar.deltaOi) ∧
    ((create { kind := .volume, interval := 1000, name := none }).consumeAll
      (witnessDecreasingTickers.map Message.derivativeTicker)).1 = [] :=
  ⟨⟨by decide,
    (volume_bar_deltaOi_ge_interval witnessVolOpen (by decide) (by decide)).1
      (witnessTicker 2 (some 6200)) witnessVolBar (by decide)⟩,
    (volume_bar_deltaOi_ge_interval
        (create { kind := .volume, interval := 1000, name := none }) (by decide) (by decide)).2
      witnessDecreasingTickers (by decide) (by decide)⟩

end DerivativeBarComputable

end TardisMachine

namespace TardisMachine

namespace DerivativeBarComputable

theorem hasNewBar_snd_of_not_time {c : DerivativeBarComputable} (ts : Int)
    (hk : c.kind ≠ .time) : (c.hasNewBar ts).2 = c := by
  rcases hasNewBar_snd_cases c ts with h | ⟨-, hkt, -⟩
  · exact h
  · exact absurd hkt hk

/-- C10: for a volume- or tick-kind accumulator (under the reachable-state
invariant that the open bar is still below its threshold), one `compute`
call either emits nothing or emits exactly one bar, closed by the
`DerivativeTick` being processed, and that bar's canonical `timestamp`
equals the closing tick's exchange timestamp, which is also the bar's own
`closeTimestamp`; moreover the invariant is preserved. -/
theorem volume_tick_bar_timestamp_eq_close
    (c : DerivativeBarComputable) (m : Message)
    (hk : c.kind = .volume ∨ c.kind = .tick) (hi : 0 < c.interval)
    (hvol : c.kind = .volume → c.inProgressBar.deltaOi < c.interval)
    (htick : c.kind = .tick → (c.inProgressBar.ticks : Int) < c.interval) :
    ((c.compute m).1 = [] ∨
      ∃ t : DerivativeTicker, m = .derivativeTicker t ∧
        ∃ bar : DerivativeBar, (c.compute m).1 = [bar] ∧
          bar.timestamp = t.timestamp ∧ bar.closeTimestamp = t.timestamp) ∧
    ((c.kind = .volume → (c.compute m).2.inProgressBar.deltaOi < c.interval) ∧
      (c.kind = .tick → ((c.compute m).2.inProgressBar.ticks : Int) < c.interval)) := by
  have hknt : c.kind ≠ .time := by rcases hk with h | h <;> simp [h]
  have h1 : ∀ ts : Int, (c.hasNewBar ts).1 = false := by
    intro ts
    rcases hflag : (c.hasNewBar ts).1 with _ | _
    · rfl
    · rcases hk with h | h
      · exact absurd (hasNewBar_true_volume h hflag) (not_le.mpr (hvol h))
      · exact absurd (hasNewBar_true_tick h hflag) (not_le.mpr (htick h))
  cases m with
  | bookChange b =>
    have hcomp : c.compute (.bookChange b) = ([], c) := by
      rw [compute_bookChange_eq, if_neg (by simp [h1 b.timestamp])]
    rw [hcomp]
    exact ⟨Or.inl rfl, hvol, htick⟩
  | derivativeTicker t =>
    have hk3 : (c.update t).kind = c.kind := update_kind c t
    have hi3 : (c.update t).interval = c.interval := update_interval c t
    have hknt3 : (c.update t).kind ≠ .time := by rw [hk3]; exact hknt
    have hsnd3 : ((c.update t).hasNewBar t.timestamp).2 = c.update t :=
      hasNewBar_snd_of_not_time t.timestamp hknt3
    by_cases h2 : ((c.update t).hasNewBar t.timestamp).1
    · have hcomp : c.compute (.derivativeTicker t) =
          ([(((c.update t).hasNewBar t.timestamp).2.computeBar (.derivativeTicker t)).1],
            (((c.update t).hasNewBar t.timestamp).2.computeBar (.derivativeTicker t)).2) := by
        rw [compute_ticker_eq]
        simp [h1 t.timestamp, h2]
      rw [hcomp]
      constructor
      · right
        refine ⟨t, rfl, _, rfl, ?_, ?_⟩
        · rw [computeBar_fst]
          show ((c.update t).hasNewBar t.timestamp).2.inProgressBar.timestamp = t.timestamp
          rw [hsnd3]
          exact update_timestamp c t
        · rw [computeBar_fst]
          show ((c.update t).hasNewBar t.timestamp).2.inProgressBar.closeTimestamp = t.timestamp
          rw [hsnd3]
          exact update_closeTimestamp c t
      · constructor
        · intro _
          rw [computeBar_snd_deltaOi]
          exact hi
        · intro _
          rw [computeBar_snd_ticks]
          exact_mod_cast hi
    · have hcomp : c.compute (.derivativeTicker t) = ([], c.update t) := by
        rw [compute_ticker_eq]
        simp [h1 t.timestamp, h2, hasNewBar_snd_of_false (by simpa using h2),
          hasNewBar_snd_of_false (h1 t.timestamp)]
      rw [hcomp]
      refine ⟨Or.inl rfl, ?_, ?_⟩
      · intro hkv
        have := hasNewBar_false_volume (hk3.trans hkv) ?_ (by simpa using h2)
        · rwa [hi3] at this
        · rw [update_ticks]; omega
      · intro hkt
        have := hasNewBar_false_tick (hk3.trans hkt) ?_ (by simpa using h2)
        · rwa [hi3] at this
        · rw [update_ticks]; omega

/-- Witness for C10: in spec Scenario A the bar closed by tick T3 (exchange
timestamp 3) carries `timestamp = 3 = closeTimestamp`, unlike time-kind
bars which are stamped with a bucket boundary. -/
theorem volume_tick_bar_timestamp_eq_close_witness :
    (witnessTickBar.timestamp = 3 ∧ witnessTickBar.closeTimestamp = 3) ∧
    ((witnessTickAcc.compute (witnessTicker 3 none)).1 = [] ∨
      ∃ t : DerivativeTicker, witnessTicker 3 none = .derivativeTicker t ∧
        ∃ bar : DerivativeBar, (witnessTickAcc.compute (witnessTicker 3 none)).1 = [bar] ∧
          bar.timestamp = t.timestamp ∧ bar.closeTimestamp = t.timestamp) :=
  ⟨⟨by decide, by decide⟩,
    (volume_tick_bar_timestamp_eq_close witnessTickAcc (witnessTicker 3 none)
      (Or.inr (by decide)) (by decide) (fun h => by simp [show witnessTickAcc.kind = .tick from by decide] at h)
      (fun _ => by decide)).1⟩

end DerivativeBarComputable

end TardisMachine

namespace TardisMachine

namespace DerivativeBarComputable

/-- Counterexample to C6: the constructor does not reject a non-positive
interval — `create` with `kind = tick, interval = 0` yields a fully
functional accumulator state, and the misconfiguration is first observed
mid-stream: the very first consumed tick immediately closes a bar. -/
theorem construction_never_rejected_counterexample :
    ((create { kind := .tick, interval := 0, name := none }).interval = 0 ∧
      (create { kind := .tick, interval := 0, name := none }).inProgressBar.ticks = 0 ∧
      (create { kind := .tick, interval := 0, name := none }).name = "derivative_bar_0ticks") ∧
    ((create { kind := .tick, interval := 0, name := none }).compute
      (witnessTicker 7 none)).1.length = 1 := by decide

/-- C6 as amended: construction never fails — `create` accepts every
options record, including a non-positive `interval`, and simply installs
the given configuration over a freshly reset bar; the configuration error
is only discovered mid-stream, e.g. a tick-kind accumulator with
`interval ≤ 0` closes a bar on every single consumed tick. -/
theorem create_accepts_nonpositive_interval
    (o : DerivativeBarComputableOptions) (i : Int) (t : DerivativeTicker)
    (hi : i ≤ 0) :
    ((create o).kind = o.kind ∧ (create o).interval = o.interval ∧
      (create o).inProgressBar.ticks = 0) ∧
    ((create { kind := .tick, interval := i, name := none }).compute
      (.derivativeTicker t)).1.length = 1 := by
  refine ⟨⟨rfl, rfl, by simp [create, resetBar]⟩, ?_⟩
  set c0 := create { kind := .tick, interval := i, name := none } with hc0
  have hticks0 : c0.inProgressBar.ticks = 0 := by simp [hc0, create, resetBar]
  have h1 : (c0.hasNewBar t.timestamp).1 = false := by
    rw [hasNewBar_of_ticks_zero t.timestamp hticks0]
  have hk3 : (c0.update t).kind = .tick := by rw [update_kind]; rfl
  have hticks3 : (c0.update t).inProgressBar.ticks = 1 := by
    rw [update_ticks, hticks0]
  have h2 : ((c0.update t).hasNewBar t.timestamp).1 = true := by
    rw [hasNewBar_tick t.timestamp hk3 (by rw [hticks3]; exact one_ne_zero)]
    have : (c0.update t).interval = i := update_interval c0 t
    simp [this, hticks3]
    omega
  have hcomp : c0.compute (.derivativeTicker t) =
      ([(((c0.update t).hasNewBar t.timestamp).2.computeBar (.derivativeTicker t)).1],
        (((c0.update t).hasNewBar t.timestamp).2.computeBar (.derivativeTicker t)).2) := by
    rw [compute_ticker_eq]
    simp [h1, h2]
  rw [hcomp]
  rfl

/-- Witness for the amended C6 at `interval = 0`: construction succeeds and
the first tick closes a bar immediately. -/
theorem create_accepts_nonpositive_interval_witness :
    (((create { kind := .volume, interval := -5, name := none }).kind =
        BarKind.volume ∧
      (create { kind := .volume, interval := -5, name := none }).interval = -5 ∧
      (create { kind := .volume, interval := -5, name := none }).inProgressBar.ticks = 0) ∧
    ((create { kind := .tick, interval := 0, name := none }).compute
      (.derivativeTicker (witnessTickerRaw 7 none))).1.length = 1) :=
  create_accepts_nonpositive_interval
    { kind := .volume, interval := -5, name := none } 0 (witnessTickerRaw 7 none) (by decide)

end DerivativeBarComputable

end TardisMachine

namespace TardisMachine

namespace DerivativeBarComputable

theorem hasNewBar_false_of_tick_lt {c : DerivativeBarComputable} (ts : Int)
    (hk : c.kind = .tick) (hinv : (c.inProgressBar.ticks : Int) < c.interval) :
    (c.hasNewBar ts).1 = false := by
  rcases h : (c.hasNewBar ts).1 with _ | _
  · rfl
  · exact absurd (hasNewBar_true_tick hk h) (not_le.mpr hinv)

theorem tick_step_ticks_lt (c : DerivativeBarComputable) (m : Message)
    (hk : c.kind = .tick) (hi : 0 < c.interval)
    (hinv : (c.inProgressBar.ticks : Int) < c.interval) :
    ((c.compute m).2.inProgressBar.ticks : Int) < c.interval := by
  cases m with
  | bookChange b =>
    have hcomp : c.compute (.bookChange b) = ([], c) := by
      rw [compute_bookChange_eq, if_neg (by simp [hasNewBar_false_of_tick_lt b.timestamp hk hinv])]
    rw [hcomp]
    exact hinv
  | derivativeTicker t =>
    have h1t : (c.hasNewBar t.timestamp).1 = false :=
      hasNewBar_false_of_tick_lt t.timestamp hk hinv
    have hk3 : (c.update t).kind = .tick := by rw [update_kind]; exact hk
    have hi3 : (c.update t).interval = c.interval := update_interval c t
    by_cases h2 : ((c.update t).hasNewBar t.timestamp).1
    · have hcomp : c.compute (.derivativeTicker t) =
          ([(((c.update t).hasNewBar t.timestamp).2.computeBar (.derivativeTicker t)).1],
            (((c.update t).hasNewBar t.timestamp).2.computeBar (.derivativeTicker t)).2) := by
        rw [compute_ticker_eq]
        simp [h1t, h2]
      rw [hcomp]
      rw [computeBar_snd_ticks]
      exact_mod_cast hi
    · have hcomp : c.compute (.derivativeTicker t) = ([], c.update t) := by
        rw [compute_ticker_eq]
        simp [h1t, h2, hasNewBar_snd_of_false (by simpa using h2)]
      rw [hcomp]
      have := hasNewBar_false_tick hk3 (by rw [update_ticks]; omega) (by simpa using h2)
      rwa [hi3] at this

theorem reach_inv_all (hist : List Message) (c : DerivativeBarComputable)
    (hi : 0 < c.interval)
    (hinv : c.kind = .tick → (c.inProgressBar.ticks : Int) < c.interval) :
    (c.consumeAll hist).2.kind = c.kind ∧
    (c.consumeAll hist).2.interval = c.interval ∧
    ((c.consumeAll hist).2.kind = .tick →
      ((c.consumeAll hist).2.inProgressBar.ticks : Int) < c.interval) := by
  induction hist generalizing c with
  | nil => exact ⟨rfl, rfl, fun hk => hinv hk⟩
  | cons m rest ih =>
    have hcons2 : (c.consumeAll (m :: rest)).2 = ((c.compute m).2.consumeAll rest).2 := by
      simp [consumeAll]
    have hk' := compute_snd_kind c m
    have hi' := compute_snd_interval c m
    have hstep : (c.compute m).2.kind = .tick →
        ((c.compute m).2.inProgressBar.ticks : Int) < (c.compute m).2.interval := by
      intro hkt
      rw [hi']
      exact tick_step_ticks_lt c m (hk' ▸ hkt) hi (hinv (hk' ▸ hkt))
    obtain ⟨ha, hb, hc⟩ := ih (c.compute m).2 (by rw [hi']; exact hi) hstep
    rw [hcons2]
    refine ⟨ha.trans hk', hb.trans hi', fun hkt => ?_⟩
    have := hc hkt
    rwa [hi'] at this

theorem compute_len_le_two (c : DerivativeBarComputable) (m : Message) :
    (c.compute m).1.length ≤ 2 := by
  cases m with
  | bookChange b =>
    rw [compute_bookChange_eq]
    split_ifs <;> simp
  | derivativeTicker t =>
    rw [compute_ticker_eq]
    split_ifs <;> simp

theorem compute_len_le_one (c : DerivativeBarComputable) (m : Message)
    (hi : 0 < c.interval)
    (htick : c.kind = .tick → (c.inProgressBar.ticks : Int) < c.interval) :
    (c.compute m).1.length ≤ 1 := by
  cases m with
  | bookChange b =>
    rw [compute_bookChange_eq]
    split_ifs <;> simp
  | derivativeTicker t =>
    by_cases h1 : (c.hasNewBar t.timestamp).1
    · have hkc : c.kind ≠ .tick := by
        intro hkt
        exact absurd (hasNewBar_true_tick hkt h1) (not_le.mpr (htick hkt))
      have hticks : ((c.hasNewBar t.timestamp).2.computeBar
          (.derivativeTicker t)).2.inProgressBar.ticks = 0 := computeBar_snd_ticks _ _
      have hkind : ((c.hasNewBar t.timestamp).2.computeBar
          (.derivativeTicker t)).2.kind = c.kind := by
        rw [computeBar_snd_kind, hasNewBar_snd_kind]
      have hint : ((c.hasNewBar t.timestamp).2.computeBar
          (.derivativeTicker t)).2.interval = c.interval := by
        rw [computeBar_snd_interval, hasNewBar_snd_interval]
      have h2 : ((((c.hasNewBar t.timestamp).2.computeBar
          (.derivativeTicker t)).2.update t).hasNewBar t.timestamp).1 = false := by
        rcases hk : c.kind with _ | _ | _
        · have hopen : (((c.hasNewBar t.timestamp).2.computeBar
              (.derivativeTicker t)).2.update t).inProgressBar.openTimestamp = t.timestamp := by
            rw [update_openTimestamp, if_pos hticks]
          have heq := @hasNewBar_time_neg
            (((c.hasNewBar t.timestamp).2.computeBar (.derivativeTicker t)).2.update t)
            t.timestamp
            (by rw [update_kind, hkind, hk])
            (by rw [update_ticks, hticks]; exact one_ne_zero)
            (by rw [hopen]; exact lt_irrefl _)
          rw [heq]
        · have hd : (((c.hasNewBar t.timestamp).2.computeBar
              (.derivativeTicker t)).2.update t).inProgressBar.deltaOi = 0 := by
            rw [update_deltaOi, if_pos hticks]
            exact sub_self _
          have heq := @hasNewBar_volume
            (((c.hasNewBar t.timestamp).2.computeBar (.derivativeTicker t)).2.update t)
            t.timestamp
            (by rw [update_kind, hkind, hk])
            (by rw [update_ticks, hticks]; exact one_ne_zero)
          rw [heq]
          simp [hd, update_interval, hint]
          omega
        · exact absurd hk hkc
      have hcomp : c.compute (.derivativeTicker t) =
          ([((c.hasNewBar t.timestamp).2.computeBar (.derivativeTicker t)).1],
            ((c.hasNewBar t.timestamp).2.computeBar (.derivativeTicker t)).2.update t) := by
        rw [compute_ticker_eq]
        simp [h1, h2, hasNewBar_snd_of_false h2]
      rw [hcomp]
      rfl
    · have hfalse : (c.hasNewBar t.timestamp).1 = false := by simpa using h1
      rw [compute_ticker_eq]
      simp only [hfalse, Bool.false_eq_true, if_false]
      split_ifs <;> simp

end DerivativeBarComputable

end TardisMachine

namespace TardisMachine

namespace DerivativeBarComputable

theorem reachable_compute_len_le_one (o : DerivativeBarComputableOptions)
    (hist : List Message) (m : Message) (hi : 0 < o.interval) :
    (((create o).consumeAll hist).2.compute m).1.length ≤ 1 := by
  have hi0 : 0 < (create o).interval := hi
  have hinv0 : (create o).kind = .tick →
      ((create o).inProgressBar.ticks : Int) < (create o).interval := by
    intro _
    have h0 : (create o).inProgressBar.ticks = 0 := by simp [create, resetBar]
    rw [h0]
    exact_mod_cast hi0
  obtain ⟨hk, hival, htk⟩ := reach_inv_all hist (create o) hi0 hinv0
  refine compute_len_le_one ((create o).consumeAll hist).2 m (by rw [hival]; exact hi0) ?_
  intro hkt
  rw [hival]
  exact htk hkt

/-- Counterexample to C5: the two-bar case is unreachable — from any state
reachable by running a freshly constructed accumulator with positive
interval over any message history (any kind, in particular volume or
tick), a single `compute` call never yields two bars. -/
theorem two_bars_unreachable_counterexample :
    ¬ ∃ (o : DerivativeBarComputableOptions) (hist : List Message) (m : Message),
        (o.kind = .volume ∨ o.kind = .tick) ∧ 0 < o.interval ∧
        2 ≤ (((create o).consumeAll hist).2.compute m).1.length := by
  rintro ⟨o, hist, m, -, hi, hlen⟩
  have := reachable_compute_len_le_one o hist m hi
  omega

/-- C5 as amended: every `compute` call yields at most two bars (the body
contains two yield sites), but from every state reachable from a freshly
constructed accumulator with positive interval a single call yields at
most one bar — the second bucket check never fires together with the
first. -/
theorem consume_yields_at_most_two_bars :
    (∀ (c : DerivativeBarComputable) (m : Message), (c.compute m).1.length ≤ 2) ∧
    (∀ (o : DerivativeBarComputableOptions) (hist : List Message) (m : Message),
      0 < o.interval →
      (((create o).consumeAll hist).2.compute m).1.length ≤ 1) :=
  ⟨compute_len_le_two, fun o hist m hi => reachable_compute_len_le_one o hist m hi⟩

/-- Witness for the amended C5 at the Scenario A closing step. -/
theorem consume_yields_at_most_two_bars_witness :
    ((witnessTickAcc.compute (witnessTicker 3 none)).1.length ≤ 2) ∧
    (((create { kind := .tick, interval := 3, name := none }).consumeAll
      [witnessTicker 1 none, witnessTicker 2 none]).2.compute
        (witnessTicker 3 none)).1.length ≤ 1 :=
  ⟨consume_yields_at_most_two_bars.1 witnessTickAcc (witnessTicker 3 none),
    consume_yields_at_most_two_bars.2 { kind := .tick, interval := 3, name := none }
      [witnessTicker 1 none, witnessTicker 2 none] (witnessTicker 3 none) (by decide)⟩

end DerivativeBarComputable

end TardisMachine

namespace TardisMachine

namespace DerivativeBarComputable

theorem fdiv_mono {a b i : Int} (hi : 0 < i) (h : a ≤ b) :
    Int.fdiv a i ≤ Int.fdiv b i := by
  rw [Int.fdiv_eq_ediv _ hi.le, Int.fdiv_eq_ediv _ hi.le]
  exact Int.ediv_le_ediv hi h

theorem boundary_mono {a b i : Int} (hi : 0 < i) (h : a ≤ b) :
    (Int.fdiv a i + 1) * i ≤ (Int.fdiv b i + 1) * i :=
  mul_le_mul_of_nonneg_right (by have := fdiv_mono hi h; omega) hi.le

theorem boundary_le_of_lt {a b i : Int} (hi : 0 < i)
    (h : Int.fdiv a i < Int.fdiv b i) :
    (Int.fdiv a i + 1) * i ≤ (Int.fdiv b i + 1) * i :=
  mul_le_mul_of_nonneg_right (by omega) hi.le

theorem minNext_of_ticks_zero_time {c : DerivativeBarComputable} {L : Int}
    (h0 : c.inProgressBar.ticks = 0) (hk : c.kind = .time) :
    minNext c L = (Int.fdiv L c.interval + 1) * c.interval := by
  simp [minNext, h0, hk]

theorem minNext_of_ticks_zero_other {c : DerivativeBarComputable} {L : Int}
    (h0 : c.inProgressBar.ticks = 0) (hk : c.kind ≠ .time) :
    minNext c L = L := by
  simp [minNext, h0, hk]

theorem minNext_of_ticks_ne_time {c : DerivativeBarComputable} {L : Int}
    (h0 : c.inProgressBar.ticks ≠ 0) (hk : c.kind = .time) :
    minNext c L =
      (Int.fdiv c.inProgressBar.openTimestamp c.interval + 1) * c.interval := by
  simp [minNext, h0, hk]

theorem minNext_of_ticks_ne_other {c : DerivativeBarComputable} {L : Int}
    (h0 : c.inProgressBar.ticks ≠ 0) (hk : c.kind ≠ .time) :
    minNext c L = c.inProgressBar.timestamp := by
  simp [minNext, h0, hk]

theorem boundedChain_nil {lo up : Int} (h : lo ≤ up) : boundedChain lo [] up := by
  simp [boundedChain, h]

theorem boundedChain_single {lo x up : Int} (h1 : lo ≤ x) (h2 : x ≤ up) :
    boundedChain lo [x] up := by
  simp [boundedChain, List.chain'_cons, h1, h2]

theorem boundedChain_pair {lo x y up : Int} (h1 : lo ≤ x) (h2 : x ≤ y) (h3 : y ≤ up) :
    boundedChain lo [x, y] up := by
  simp [boundedChain, List.chain'_cons, h1, h2, h3]

theorem boundedChain_compose {lo mid up : Int} {xs ys : List Int}
    (h1 : boundedChain lo xs mid) (h2 : boundedChain mid ys up) :
    boundedChain lo (xs ++ ys) up := by
  induction xs generalizing lo with
  | nil =>
    have hlm : lo ≤ mid := by
      simpa [boundedChain] using h1
    unfold boundedChain at h2 ⊢
    simp only [List.nil_append]
    cases ys with
    | nil =>
      have hmu : mid ≤ up := by
        simpa [boundedChain] using h2
      simpa using hlm.trans hmu
    | cons y ys' =>
      simp only [List.cons_append, List.chain'_cons] at h2 ⊢
      exact ⟨hlm.trans h2.1, h2.2⟩
  | cons x xs' ih =>
    unfold boundedChain at h1 ⊢
    simp only [List.cons_append, List.chain'_cons] at h1 ⊢
    exact ⟨h1.1, ih h1.2⟩

theorem boundedChain_pairwise {lo up : Int} {xs : List Int}
    (h : boundedChain lo xs up) :
    List.Pairwise (fun a b : Int => a ≤ b) xs := by
  unfold boundedChain at h
  have hp : List.Pairwise (fun a b : Int => a ≤ b) (lo :: xs ++ [up]) :=
    List.chain'_iff_pairwise.mp h
  exact hp.sublist ((List.sublist_append_left xs [up]).cons lo)

end DerivativeBarComputable

end TardisMachine

namespace TardisMachine

namespace DerivativeBarComputable

theorem stepOrder_bookChange (c : DerivativeBarComputable) (b : BookChange) (L : Int)
    (hi : 0 < c.interval) (hg : goodState c L) (hL : L ≤ b.timestamp) :
    boundedChain (minNext c L)
      ((c.compute (.bookChange b)).1.map DerivativeBar.timestamp)
      (minNext (c.compute (.bookChange b)).2 b.timestamp) ∧
    goodState (c.compute (.bookChange b)).2 b.timestamp := by
  by_cases h1 : (c.hasNewBar b.timestamp).1
  · have ht : c.inProgressBar.ticks ≠ 0 := hasNewBar_true_ticks_ne h1
    obtain ⟨hTs, hOp⟩ := hg ht
    have hcomp : c.compute (.bookChange b) =
        ([((c.hasNewBar b.timestamp).2.computeBar (.bookChange b)).1],
          ((c.hasNewBar b.timestamp).2.computeBar (.bookChange b)).2) := by
      rw [compute_bookChange_eq, if_pos h1]
    rw [hcomp]
    have hcr_ticks :
        ((c.hasNewBar b.timestamp).2.computeBar (.bookChange b)).2.inProgressBar.ticks = 0 :=
      computeBar_snd_ticks _ _
    have hcr_kind :
        ((c.hasNewBar b.timestamp).2.computeBar (.bookChange b)).2.kind = c.kind := by
      rw [computeBar_snd_kind, hasNewBar_snd_kind]
    have hcr_int :
        ((c.hasNewBar b.timestamp).2.computeBar (.bookChange b)).2.interval = c.interval := by
      rw [computeBar_snd_interval, hasNewBar_snd_interval]
    refine ⟨?_, fun h0 => absurd hcr_ticks h0⟩
    simp only [List.map_cons, List.map_nil]
    by_cases hk : c.kind = .time
    · have hsnd := hasNewBar_true_time_snd hk h1
      have hbar_ts :
          ((c.hasNewBar b.timestamp).2.computeBar (.bookChange b)).1.timestamp =
            (Int.fdiv c.inProgressBar.openTimestamp c.interval + 1) * c.interval := by
        rw [computeBar_fst]
        show (c.hasNewBar b.timestamp).2.inProgressBar.timestamp = _
        rw [hsnd]
      have hblt := hasNewBar_true_time_bucket_lt hk h1
      have hmn1 := @minNext_of_ticks_ne_time c L ht hk
      have hmn2 : minNext ((c.hasNewBar b.timestamp).2.computeBar (.bookChange b)).2
          b.timestamp = (Int.fdiv b.timestamp c.interval + 1) * c.interval := by
        rw [minNext_of_ticks_zero_time hcr_ticks (by rw [hcr_kind]; exact hk), hcr_int]
      apply boundedChain_single
      · rw [hmn1, hbar_ts]
      · rw [hbar_ts, hmn2]
        exact boundary_le_of_lt hi hblt
    · have hsnd : (c.hasNewBar b.timestamp).2 = c :=
        hasNewBar_snd_of_not_time _ hk
      have hbar_ts :
          ((c.hasNewBar b.timestamp).2.computeBar (.bookChange b)).1.timestamp =
            c.inProgressBar.timestamp := by
        rw [computeBar_fst]
        show (c.hasNewBar b.timestamp).2.inProgressBar.timestamp = _
        rw [hsnd]
      have hmn1 := @minNext_of_ticks_ne_other c L ht hk
      have hmn2 : minNext ((c.hasNewBar b.timestamp).2.computeBar (.bookChange b)).2
          b.timestamp = b.timestamp :=
        minNext_of_ticks_zero_other hcr_ticks (by rw [hcr_kind]; exact hk)
      apply boundedChain_single
      · rw [hmn1, hbar_ts]
      · rw [hbar_ts, hmn2]
        exact hTs.trans hL
  · have hcomp : c.compute (.bookChange b) = ([], c) := by
      rw [compute_bookChange_eq, if_neg h1]
    rw [hcomp]
    refine ⟨?_, fun h0 => ⟨(hg h0).1.trans hL, (hg h0).2.trans hL⟩⟩
    simp only [List.map_nil]
    apply boundedChain_nil
    by_cases h0 : c.inProgressBar.ticks = 0
    · by_cases hk : c.kind = .time
      · rw [minNext_of_ticks_zero_time h0 hk, minNext_of_ticks_zero_time h0 hk]
        exact boundary_mono hi hL
      · rw [minNext_of_ticks_zero_other h0 hk, minNext_of_ticks_zero_other h0 hk]
        exact hL
    · by_cases hk : c.kind = .time
      · rw [minNext_of_ticks_ne_time h0 hk, minNext_of_ticks_ne_time h0 hk]
      · rw [minNext_of_ticks_ne_other h0 hk, minNext_of_ticks_ne_other h0 hk]

end DerivativeBarComputable

end TardisMachine

namespace TardisMachine

namespace DerivativeBarComputable

theorem stepOrder_ticker (c : DerivativeBarComputable) (t : DerivativeTicker) (L : Int)
    (hi : 0 < c.interval) (hg : goodState c L) (hL : L ≤ t.timestamp) :
    boundedChain (minNext c L)
      ((c.compute (.derivativeTicker t)).1.map DerivativeBar.timestamp)
      (minNext (c.compute (.derivativeTicker t)).2 t.timestamp) ∧
    goodState (c.compute (.derivativeTicker t)).2 t.timestamp := by
  by_cases h1 : (c.hasNewBar t.timestamp).1
  · -- the first bucket check fires
    have ht : c.inProgressBar.ticks ≠ 0 := hasNewBar_true_ticks_ne h1
    obtain ⟨hTs, hOp⟩ := hg ht
    have hcm_ticks : ((c.hasNewBar t.timestamp).2.computeBar
        (.derivativeTicker t)).2.inProgressBar.ticks = 0 := computeBar_snd_ticks _ _
    have hcm_kind : ((c.hasNewBar t.timestamp).2.computeBar
        (.derivativeTicker t)).2.kind = c.kind := by
      rw [computeBar_snd_kind, hasNewBar_snd_kind]
    have hcm_int : ((c.hasNewBar t.timestamp).2.computeBar
        (.derivativeTicker t)).2.interval = c.interval := by
      rw [computeBar_snd_interval, hasNewBar_snd_interval]
    have h3_ticks : (((c.hasNewBar t.timestamp).2.computeBar
        (.derivativeTicker t)).2.update t).inProgressBar.ticks = 1 := by
      rw [update_ticks, hcm_ticks]
    have h3_ts : (((c.hasNewBar t.timestamp).2.computeBar
        (.derivativeTicker t)).2.update t).inProgressBar.timestamp = t.timestamp :=
      update_timestamp _ _
    have h3_open : (((c.hasNewBar t.timestamp).2.computeBar
        (.derivativeTicker t)).2.update t).inProgressBar.openTimestamp = t.timestamp := by
      rw [update_openTimestamp, if_pos hcm_ticks]
    have h3_kind : (((c.hasNewBar t.timestamp).2.computeBar
        (.derivativeTicker t)).2.update t).kind = c.kind := by
      rw [update_kind, hcm_kind]
    have h3_int : (((c.hasNewBar t.timestamp).2.computeBar
        (.derivativeTicker t)).2.update t).interval = c.interval := by
      rw [update_interval, hcm_int]
    by_cases hk : c.kind = .time
    · -- time kind: the second check cannot fire again
      have h2eq := @hasNewBar_time_neg
        (((c.hasNewBar t.timestamp).2.computeBar (.derivativeTicker t)).2.update t)
        t.timestamp
        (by rw [h3_kind]; exact hk)
        (by rw [h3_ticks]; exact one_ne_zero)
        (by rw [h3_open]; exact lt_irrefl _)
      have h2 : ((((c.hasNewBar t.timestamp).2.computeBar
          (.derivativeTicker t)).2.update t).hasNewBar t.timestamp).1 = false := by
        rw [h2eq]
      have hcomp : c.compute (.derivativeTicker t) =
          ([((c.hasNewBar t.timestamp).2.computeBar (.derivativeTicker t)).1],
            ((c.hasNewBar t.timestamp).2.computeBar (.derivativeTicker t)).2.update t) := by
        rw [compute_ticker_eq]
        simp [h1, h2, hasNewBar_snd_of_false h2]
      rw [hcomp]
      have hsnd := hasNewBar_true_time_snd hk h1
      have hbar_ts : ((c.hasNewBar t.timestamp).2.computeBar
          (.derivativeTicker t)).1.timestamp =
          (Int.fdiv c.inProgressBar.openTimestamp c.interval + 1) * c.interval := by
        rw [computeBar_fst]
        show (c.hasNewBar t.timestamp).2.inProgressBar.timestamp = _
        rw [hsnd]
      have hblt := hasNewBar_true_time_bucket_lt hk h1
      refine ⟨?_, fun _ => ⟨by rw [h3_ts], by rw [h3_open]⟩⟩
      simp only [List.map_cons, List.map_nil]
      have hmn1 := @minNext_of_ticks_ne_time c L ht hk
      have hmn2 : minNext (((c.hasNewBar t.timestamp).2.computeBar
          (.derivativeTicker t)).2.update t) t.timestamp =
          (Int.fdiv t.timestamp c.interval + 1) * c.interval := by
        rw [minNext_of_ticks_ne_time (by rw [h3_ticks]; exact one_ne_zero)
          (by rw [h3_kind]; exact hk), h3_open, h3_int]
      apply boundedChain_single
      · rw [hmn1, hbar_ts]
      · rw [hbar_ts, hmn2]
        exact boundary_le_of_lt hi hblt
    · -- volume/tick kind, first check fired
      have hsnd : (c.hasNewBar t.timestamp).2 = c := hasNewBar_snd_of_not_time _ hk
      have hbar_ts : ((c.hasNewBar t.timestamp).2.computeBar
          (.derivativeTicker t)).1.timestamp = c.inProgressBar.timestamp := by
        rw [computeBar_fst]
        show (c.hasNewBar t.timestamp).2.inProgressBar.timestamp = _
        rw [hsnd]
      have hmn1 := @minNext_of_ticks_ne_other c L ht hk
      by_cases h2 : ((((c.hasNewBar t.timestamp).2.computeBar
          (.derivativeTicker t)).2.update t).hasNewBar t.timestamp).1
      · -- second check fires as well: two bars
        have hsnd3 : ((((c.hasNewBar t.timestamp).2.computeBar
            (.derivativeTicker t)).2.update t).hasNewBar t.timestamp).2 =
            ((c.hasNewBar t.timestamp).2.computeBar (.derivativeTicker t)).2.update t :=
          hasNewBar_snd_of_not_time _ (by rw [h3_kind]; exact hk)
        have hcomp : c.compute (.derivativeTicker t) =
            ([((c.hasNewBar t.timestamp).2.computeBar (.derivativeTicker t)).1,
              (((((c.hasNewBar t.timestamp).2.computeBar
                (.derivativeTicker t)).2.update t).hasNewBar t.timestamp).2.computeBar
                  (.derivativeTicker t)).1],
              (((((c.hasNewBar t.timestamp).2.computeBar
                (.derivativeTicker t)).2.update t).hasNewBar t.timestamp).2.computeBar
                  (.derivativeTicker t)).2) := by
          rw [compute_ticker_eq]
          simp [h1, h2]
        have hbar2_ts : (((((c.hasNewBar t.timestamp).2.computeBar
            (.derivativeTicker t)).2.update t).hasNewBar t.timestamp).2.computeBar
              (.derivativeTicker t)).1.timestamp = t.timestamp := by
          rw [computeBar_fst]
          show ((((c.hasNewBar t.timestamp).2.computeBar
            (.derivativeTicker t)).2.update t).hasNewBar
              t.timestamp).2.inProgressBar.timestamp = _
          rw [hsnd3, h3_ts]
        have hcr2_ticks : (((((c.hasNewBar t.timestamp).2.computeBar
            (.derivativeTicker t)).2.update t).hasNewBar t.timestamp).2.computeBar
              (.derivativeTicker t)).2.inProgressBar.ticks = 0 := computeBar_snd_ticks _ _
        have hcr2_kind : (((((c.hasNewBar t.timestamp).2.computeBar
            (.derivativeTicker t)).2.update t).hasNewBar t.timestamp).2.computeBar
              (.derivativeTicker t)).2.kind = c.kind := by
          rw [computeBar_snd_kind, hasNewBar_snd_kind, h3_kind]
        have hmn2 : minNext (((((c.hasNewBar t.timestamp).2.computeBar
            (.derivativeTicker t)).2.update t).hasNewBar t.timestamp).2.computeBar
              (.derivativeTicker t)).2 t.timestamp = t.timestamp :=
          minNext_of_ticks_zero_other hcr2_ticks (by rw [hcr2_kind]; exact hk)
        rw [hcomp]
        refine ⟨?_, fun h0 => absurd hcr2_ticks h0⟩
        simp only [List.map_cons, List.map_nil]
        apply boundedChain_pair
        · rw [hmn1, hbar_ts]
        · rw [hbar_ts, hbar2_ts]
          exact hTs.trans hL
        · rw [hbar2_ts, hmn2]
      · -- only the first bar
        have hcomp : c.compute (.derivativeTicker t) =
            ([((c.hasNewBar t.timestamp).2.computeBar (.derivativeTicker t)).1],
              ((c.hasNewBar t.timestamp).2.computeBar (.derivativeTicker t)).2.update t) := by
          rw [compute_ticker_eq]
          simp [h1, h2, hasNewBar_snd_of_false (by simpa using h2)]
        rw [hcomp]
        have hmn2 : minNext (((c.hasNewBar t.timestamp).2.computeBar
            (.derivativeTicker t)).2.update t) t.timestamp = t.timestamp := by
          rw [minNext_of_ticks_ne_other (by rw [h3_ticks]; exact one_ne_zero)
            (by rw [h3_kind]; exact hk), h3_ts]
        refine ⟨?_, fun _ => ⟨by rw [h3_ts], by rw [h3_open]⟩⟩
        simp only [List.map_cons, List.map_nil]
        apply boundedChain_single
        · rw [hmn1, hbar_ts]
        · rw [hbar_ts, hmn2]
          exact hTs.trans hL
  · -- the first bucket check does not fire
    have hsnd1 : (c.hasNewBar t.timestamp).2 = c :=
      hasNewBar_snd_of_false (by simpa using h1)
    have h3_ticks : (c.update t).inProgressBar.ticks = c.inProgressBar.ticks + 1 :=
      update_ticks c t
    have h3_ticksne : (c.update t).inProgressBar.ticks ≠ 0 := by
      rw [h3_ticks]
      exact Nat.succ_ne_zero _
    have h3_ts : (c.update t).inProgressBar.timestamp = t.timestamp := update_timestamp c t
    have h3_open := update_openTimestamp c t
    have h3_kind : (c.update t).kind = c.kind := update_kind c t
    have h3_int : (c.update t).interval = c.interval := update_interval c t
    have hg3 : goodState (c.update t) t.timestamp := by
      intro _
      refine ⟨by rw [h3_ts], ?_⟩
      rw [h3_open]
      by_cases h0 : c.inProgressBar.ticks = 0
      · rw [if_pos h0]
      · rw [if_neg h0]
        exact (hg h0).2.trans hL
    by_cases h2 : ((c.update t).hasNewBar t.timestamp).1
    · by_cases hk : c.kind = .time
      · -- the event itself crossed a bucket boundary
        have hblt3 := hasNewBar_true_time_bucket_lt (by rw [h3_kind]; exact hk) h2
        rw [h3_int] at hblt3
        have hB : c.inProgressBar.ticks ≠ 0 := by
          intro h0
          rw [h3_open, if_pos h0] at hblt3
          exact lt_irrefl _ hblt3
        obtain ⟨hTs, hOp⟩ := hg hB
        have h3_open' : (c.update t).inProgressBar.openTimestamp =
            c.inProgressBar.openTimestamp := by
          rw [h3_open, if_neg hB]
        rw [h3_open'] at hblt3
        have hsnd3 := hasNewBar_true_time_snd (by rw [h3_kind]; exact hk) h2
        have hcomp : c.compute (.derivativeTicker t) =
            ([(((c.update t).hasNewBar t.timestamp).2.computeBar (.derivativeTicker t)).1],
              (((c.update t).hasNewBar t.timestamp).2.computeBar (.derivativeTicker t)).2) := by
          rw [compute_ticker_eq]
          simp [h1, h2]
        have hbar2_ts : (((c.update t).hasNewBar t.timestamp).2.computeBar
            (.derivativeTicker t)).1.timestamp =
            (Int.fdiv c.inProgressBar.openTimestamp c.interval + 1) * c.interval := by
          rw [computeBar_fst]
          show ((c.update t).hasNewBar t.timestamp).2.inProgressBar.timestamp = _
          rw [hsnd3, h3_open', h3_int]
        have hcr2_ticks : (((c.update t).hasNewBar t.timestamp).2.computeBar
            (.derivativeTicker t)).2.inProgressBar.ticks = 0 := computeBar_snd_ticks _ _
        have hcr2_kind : (((c.update t).hasNewBar t.timestamp).2.computeBar
            (.derivativeTicker t)).2.kind = c.kind := by
          rw [computeBar_snd_kind, hasNewBar_snd_kind, h3_kind]
        have hcr2_int : (((c.update t).hasNewBar t.timestamp).2.computeBar
            (.derivativeTicker t)).2.interval = c.interval := by
          rw [computeBar_snd_interval, hasNewBar_snd_interval, h3_int]
        have hmn1 := @minNext_of_ticks_ne_time c L hB hk
        have hmn2 : minNext (((c.update t).hasNewBar t.timestamp).2.computeBar
            (.derivativeTicker t)).2 t.timestamp =
            (Int.fdiv t.timestamp c.interval + 1) * c.interval := by
          rw [minNext_of_ticks_zero_time hcr2_ticks (by rw [hcr2_kind]; exact hk), hcr2_int]
        rw [hcomp]
        refine ⟨?_, fun h0 => absurd hcr2_ticks h0⟩
        simp only [List.map_cons, List.map_nil]
        apply boundedChain_single
        · rw [hmn1, hbar2_ts]
        · rw [hbar2_ts, hmn2]
          exact boundary_le_of_lt hi hblt3
      · -- volume/tick threshold hit by this event
        have hsnd3 : (((c.update t).hasNewBar t.timestamp).2) = c.update t :=
          hasNewBar_snd_of_not_time _ (by rw [h3_kind]; exact hk)
        have hcomp : c.compute (.derivativeTicker t) =
            ([(((c.update t).hasNewBar t.timestamp).2.computeBar (.derivativeTicker t)).1],
              (((c.update t).hasNewBar t.timestamp).2.computeBar (.derivativeTicker t)).2) := by
          rw [compute_ticker_eq]
          simp [h1, h2]
        have hbar2_ts : (((c.update t).hasNewBar t.timestamp).2.computeBar
            (.derivativeTicker t)).1.timestamp = t.timestamp := by
          rw [computeBar_fst]
          show ((c.update t).hasNewBar t.timestamp).2.inProgressBar.timestamp = _
          rw [hsnd3, h3_ts]
        have hcr2_ticks : (((c.update t).hasNewBar t.timestamp).2.computeBar
            (.derivativeTicker t)).2.inProgressBar.ticks = 0 := computeBar_snd_ticks _ _
        have hcr2_kind : (((c.update t).hasNewBar t.timestamp).2.computeBar
            (.derivativeTicker t)).2.kind = c.kind := by
          rw [computeBar_snd_kind, hasNewBar_snd_kind, h3_kind]
        have hmn2 : minNext (((c.update t).hasNewBar t.timestamp).2.computeBar
            (.derivativeTicker t)).2 t.timestamp = t.timestamp :=
          minNext_of_ticks_zero_other hcr2_ticks (by rw [hcr2_kind]; exact hk)
        have hlo : minNext c L ≤ t.timestamp := by
          by_cases h0 : c.inProgressBar.ticks = 0
          · rw [minNext_of_ticks_zero_other h0 hk]
            exact hL
          · rw [minNext_of_ticks_ne_other h0 hk]
            exact (hg h0).1.trans hL
        rw [hcomp]
        refine ⟨?_, fun h0 => absurd hcr2_ticks h0⟩
        simp only [List.map_cons, List.map_nil]
        apply boundedChain_single
        · rw [hbar2_ts]
          exact hlo
        · rw [hbar2_ts, hmn2]
    · -- no emission at all
      have hcomp : c.compute (.derivativeTicker t) = ([], c.update t) := by
        rw [compute_ticker_eq]
        simp [h1, h2, hasNewBar_snd_of_false (by simpa using h2)]
      rw [hcomp]
      refine ⟨?_, hg3⟩
      simp only [List.map_nil]
      apply boundedChain_nil
      by_cases hk : c.kind = .time
      · have hmn2 : minNext (c.update t) t.timestamp =
            (Int.fdiv (c.update t).inProgressBar.openTimestamp c.interval + 1) *
              c.interval := by
          rw [minNext_of_ticks_ne_time h3_ticksne (by rw [h3_kind]; exact hk), h3_int]
        by_cases h0 : c.inProgressBar.ticks = 0
        · rw [minNext_of_ticks_zero_time h0 hk, hmn2, h3_open, if_pos h0]
          exact boundary_mono hi hL
        · rw [minNext_of_ticks_ne_time h0 hk, hmn2, h3_open, if_neg h0]
      · have hmn2 : minNext (c.update t) t.timestamp = t.timestamp := by
          rw [minNext_of_ticks_ne_other h3_ticksne (by rw [h3_kind]; exact hk), h3_ts]
        rw [hmn2]
        by_cases h0 : c.inProgressBar.ticks = 0
        · rw [minNext_of_ticks_zero_other h0 hk]
          exact hL
        · rw [minNext_of_ticks_ne_other h0 hk]
          exact (hg h0).1.trans hL

end DerivativeBarComputable

end TardisMachine

namespace TardisMachine

namespace DerivativeBarComputable

theorem stepOrder (c : DerivativeBarComputable) (m : Message) (L : Int)
    (hi : 0 < c.interval) (hg : goodState c L) (hL : L ≤ m.timestamp) :
    boundedChain (minNext c L) ((c.compute m).1.map DerivativeBar.timestamp)
      (minNext (c.compute m).2 m.timestamp) ∧
    goodState (c.compute m).2 m.timestamp := by
  cases m with
  | bookChange b =>
    exact stepOrder_bookChange c b L hi hg (by simpa [Message.timestamp] using hL)
  | derivativeTicker t =>
    exact stepOrder_ticker c t L hi hg (by simpa [Message.timestamp] using hL)

theorem runOrder (msgs : List Message) (c : DerivativeBarComputable) (L : Int)
    (hi : 0 < c.interval) (hg : goodState c L)
    (hmsgs : ∀ m ∈ msgs, L ≤ m.timestamp)
    (hsorted : List.Pairwise (fun a b : Int => a ≤ b) (msgs.map Message.timestamp)) :
    ∃ M : Int, boundedChain (minNext c L)
      ((c.consumeAll msgs).1.map DerivativeBar.timestamp) M := by
  induction msgs generalizing c L with
  | nil =>
    exact ⟨minNext c L, by simpa [consumeAll] using boundedChain_nil le_rfl⟩
  | cons m rest ih =>
    obtain ⟨hchain, hg'⟩ := stepOrder c m L hi hg (hmsgs m (List.mem_cons_self m rest))
    rw [List.map_cons, List.pairwise_cons] at hsorted
    obtain ⟨hhead, htail⟩ := hsorted
    have hi' : 0 < (c.compute m).2.interval := by
      rw [compute_snd_interval]
      exact hi
    have hmsgs' : ∀ m' ∈ rest, m.timestamp ≤ m'.timestamp := by
      intro m' hm'
      exact hhead _ (List.mem_map_of_mem _ hm')
    obtain ⟨M, hM⟩ := ih (c.compute m).2 m.timestamp hi' hg' hmsgs' htail
    refine ⟨M, ?_⟩
    have hcons : (c.consumeAll (m :: rest)).1 =
        (c.compute m).1 ++ ((c.compute m).2.consumeAll rest).1 := by
      simp [consumeAll]
    rw [hcons, List.map_append]
    exact boundedChain_compose hchain hM

/-- C7: for a fixed accumulator of any kind (freshly constructed with a
positive interval), if the input events carry non-decreasing timestamps
then the bars collected across all successive `compute` calls, in emission
order, carry non-decreasing `timestamp` values. -/
theorem bars_emitted_in_timestamp_order
    (o : DerivativeBarComputableOptions) (msgs : List Message)
    (hi : 0 < o.interval)
    (hsorted : List.Pairwise (fun a b : Int => a ≤ b) (msgs.map Message.timestamp)) :
    List.Pairwise (fun a b : Int => a ≤ b)
      (((create o).consumeAll msgs).1.map DerivativeBar.timestamp) := by
  cases msgs with
  | nil => simp [consumeAll]
  | cons m rest =>
    have hg0 : goodState (create o) m.timestamp := by
      intro h0
      exact absurd (by simp [create, resetBar] :
        (create o).inProgressBar.ticks = 0) h0
    have hmsgs : ∀ m' ∈ m :: rest, m.timestamp ≤ m'.timestamp := by
      intro m' hm'
      rcases List.mem_cons.mp hm' with h | h
      · rw [h]
      · rw [List.map_cons, List.pairwise_cons] at hsorted
        exact hsorted.1 _ (List.mem_map_of_mem _ h)
    obtain ⟨M, hM⟩ := runOrder (m :: rest) (create o) m.timestamp hi hg0 hmsgs hsorted
    exact boundedChain_pairwise hM

/-- Witness for C7: a time-kind accumulator over four in-order events
(two ticks, two heartbeats) emits the bars stamped 60000 and 120000, in
non-decreasing order. -/
theorem bars_emitted_in_timestamp_order_witness :
    ((((create { kind := .time, interval := 60000, name := none }).consumeAll
      [witnessTicker 10000 none, witnessHeartbeat 65000, witnessTicker 70000 none,
        witnessHeartbeat 130000]).1.map DerivativeBar.timestamp) = [60000, 120000]) ∧
    List.Pairwise (fun a b : Int => a ≤ b)
      (((create { kind := .time, interval := 60000, name := none }).consumeAll
        [witnessTicker 10000 none, witnessHeartbeat 65000, witnessTicker 70000 none,
          witnessHeartbeat 130000]).1.map DerivativeBar.timestamp) :=
  ⟨by decide,
    bars_emitted_in_timestamp_order { kind := .time, interval := 60000, name := none }
      [witnessTicker 10000 none, witnessHeartbeat 65000, witnessTicker 70000 none,
        witnessHeartbeat 130000] (by decide) (by decide)⟩

end DerivativeBarComputable

end TardisMachine
